import Mathlib

/-!
# BGvACC update plug-in: model and verified properties

A shallow embedding of `src/BGvACC.cpp`.

* `std::string` is a list of characters (`Str`).
* `int` is `Int`; the three places where the program does arithmetic on an
  `int` (`++m_OnlineSeconds`, `m_ReminderMinutes * 60`, `Counter -
  m_LastCheckCounter`) go through `wrapInt`, the 32-bit two's complement
  wrap-around.
* `std::regex` is a small backtracking matcher (`Regex.run`) that lists the
  matches from one start position in ECMAScript priority order;
  `regex_search` tries the start positions from left to right and takes the
  first match of the first position that has one.
* `std::stoi` is `stoi`; a C++ exception is the `Except.error` of `Except Exn`.
* the host calls (`DisplayUserMessage`, `MessageBoxA`, `ShellExecuteA`) are
  recorded in a trace of `Effect`s; what the host and the network return
  (the sector file names of the controllers, the answers to the two requests,
  `GetConnectionType`) is an input of the callback.
-/

namespace BGvACC

/-! ## Strings, integers, exceptions -/

/-- A `std::string`: its characters in order. -/
abbrev Str := List Char

/-- Largest value of a 32-bit `int`. -/
def INT_MAX : Int := 2147483647

/-- Smallest value of a 32-bit `int`. -/
def INT_MIN : Int := -2147483648

/-- Two's complement wrap-around of a mathematical integer into a 32-bit `int`. -/
def wrapInt (x : Int) : Int := (x + 2147483648) % 4294967296 - 2147483648

/-- The exceptions `std::stoi` throws. -/
inductive Exn where
  | invalid_argument
  | out_of_range
  deriving DecidableEq

instance instDecidableEqExcept {ε α : Type} [DecidableEq ε] [DecidableEq α] :
    DecidableEq (Except ε α)
  | .ok a, .ok b => if h : a = b then isTrue (by rw [h]) else isFalse (by intro e; cases e; exact h rfl)
  | .error a, .error b =>
    if h : a = b then isTrue (by rw [h]) else isFalse (by intro e; cases e; exact h rfl)
  | .ok _, .error _ => isFalse (by intro e; cases e)
  | .error _, .ok _ => isFalse (by intro e; cases e)

/-- The character class `\s` of `std::regex` (and `isspace`) in the "C" locale. -/
def isSpace (c : Char) : Bool :=
  c = ' ' || c = '\t' || c = '\n' || c = '\x0b' || c = '\x0c' || c = '\r'

/-- The character class `\d`, the same as `[0-9]`. -/
def isDigit (c : Char) : Bool := c.isDigit

/-- The character class `[A-Z]`. -/
def isUpperAZ (c : Char) : Bool := c.isUpper

/-- The character class `[^"]`. -/
def notQuote (c : Char) : Bool := !(c = '"')

/-- Value of a run of decimal digits, most significant digit first. -/
def decimalValue (ds : Str) : Nat :=
  ds.foldl (fun acc c => 10 * acc + (c.toNat - 48)) 0

/-- Model of `std::stoi(s)` (base 10): skip leading white space, read an
optional sign and the longest run of digits; no digit at all throws
`std::invalid_argument`, a value outside `int` throws `std::out_of_range`. -/
def stoi (s : Str) : Except Exn Int :=
  let s1 := s.dropWhile isSpace
  let neg := s1.head? = some '-'
  let s2 := if s1.head? = some '-' ∨ s1.head? = some '+' then s1.tail else s1
  let ds := s2.takeWhile isDigit
  if ds = [] then .error .invalid_argument
  else
    let v : Int := if neg then -(decimalValue ds : Int) else (decimalValue ds : Int)
    if v < INT_MIN ∨ INT_MAX < v then .error .out_of_range else .ok v

/-! ## Regular expressions -/

/-- The fragment of ECMAScript regular expressions the program uses. Every
repetition in its patterns is a greedy repetition of a character class. -/
inductive Regex where
  | eps
  | chr (c : Char)
  | cls (p : Char → Bool)
  | star (p : Char → Bool)
  | seq (a b : Regex)
  | opt (a : Regex)
  | group (k : Nat) (a : Regex)

/-- A state of the matcher: the input still to read and the capture groups
recorded so far (latest first). -/
structure MatchState where
  rest : Str
  groups : List (Nat × Str)
  deriving DecidableEq

/-- The ways the greedy `p*` can match at the head of the input, longest first. -/
def starResults (p : Char → Bool) (groups : List (Nat × Str)) : Str → List MatchState
  | [] => [⟨[], groups⟩]
  | c :: cs =>
    if p c then starResults p groups cs ++ [⟨c :: cs, groups⟩] else [⟨c :: cs, groups⟩]

/-- All matches of a pattern at the head of the input, in the order a
backtracking ECMAScript matcher tries them. -/
def Regex.run : Regex → MatchState → List MatchState
  | .eps, st => [st]
  | .chr c, st =>
    match st.rest with
    | [] => []
    | x :: xs => if x = c then [⟨xs, st.groups⟩] else []
  | .cls p, st =>
    match st.rest with
    | [] => []
    | x :: xs => if p x then [⟨xs, st.groups⟩] else []
  | .star p, st => starResults p st.groups st.rest
  | .seq a b, st => (a.run st).flatMap b.run
  | .opt a, st => a.run st ++ [st]
  | .group k a, st =>
    (a.run st).map fun st' =>
      ⟨st'.rest, (k, st.rest.take (st.rest.length - st'.rest.length)) :: st'.groups⟩

/-- Concatenation of patterns. -/
def Regex.cat : List Regex → Regex
  | [] => .eps
  | r :: rs => .seq r (Regex.cat rs)

/-- A literal string. -/
def Regex.lit (s : Str) : Regex := Regex.cat (s.map Regex.chr)

/-- The greedy `p+`. -/
def Regex.plus (p : Char → Bool) : Regex := .seq (.cls p) (.star p)

/-- The counted repetition `p{n}`. -/
def Regex.times (n : Nat) (p : Char → Bool) : Regex := Regex.cat (List.replicate n (.cls p))

/-- Model of `std::regex_search(s, m, rx)`: the first match of the leftmost
start position that has one; `none` when the call returns `false`. -/
def regex_search (rx : Regex) : Str → Option MatchState
  | [] => (rx.run ⟨[], []⟩).head?
  | c :: cs =>
    match (rx.run ⟨c :: cs, []⟩).head? with
    | some m => some m
    | none => regex_search rx cs

/-- Sub-match `m[k]`: `none` when the group did not take part in the match
(`m[k].matched` is false), else its text (`m[k].str()`). -/
def MatchState.sub (m : MatchState) (k : Nat) : Option Str := m.groups.lookup k

/-! ## Version records and their parsers -/

structure ParsedLocal where
  airac_cycle : Int := 0
  airac_version : Int := 0
  package_version : Int := 0
  package_name : Str := []
  deriving DecidableEq

structure RemoteLatest where
  airac_cycle : Int := 0
  airac_version : Int := 0
  package_version : Int := 0
  latest_package_name : Str := []
  download_url : Str := []
  notes : Str := []
  deriving DecidableEq

/-- The pattern `(25\d{2})\s*/\s*([0-9]+)(?:-([0-9]+))?\s+[A-Z]{4}\s+(20\d{6})`. -/
def rxLocal : Regex :=
  Regex.cat
    [ .group 1 (Regex.cat [.chr '2', .chr '5', Regex.times 2 isDigit]),
      .star isSpace, .chr '/', .star isSpace,
      .group 2 (Regex.plus isDigit),
      .opt (Regex.cat [.chr '-', .group 3 (Regex.plus isDigit)]),
      Regex.plus isSpace, Regex.times 4 isUpperAZ, Regex.plus isSpace,
      .group 4 (Regex.cat [.chr '2', .chr '0', Regex.times 6 isDigit]) ]

/-- Text of a sub-match, the empty string when it did not take part. -/
def MatchState.str (m : MatchState) (k : Nat) : Str := (m.sub k).getD []

def ParseLocalFromInfoString (s : Str) (out : ParsedLocal) : Except Exn (Bool × ParsedLocal) :=
  match regex_search rxLocal s with
  | none => .ok (false, out)
  | some m => do
    let cycle ← stoi (m.str 1)
    let version ← stoi (m.str 2)
    let package ← if (m.sub 3).isSome then stoi (m.str 3) else pure 0
    pure (true, { out with airac_cycle := cycle, airac_version := version,
                           package_version := package, package_name := s })

def RegGet (s : Str) (rx : Regex) : Str :=
  match regex_search rx s with
  | some m => m.str 1
  | none => []

/-- The pattern `"key"\s*:\s*(\d+)`. -/
def rxNumField (key : Str) : Regex :=
  Regex.cat [Regex.lit (['"'] ++ key ++ ['"']), .star isSpace, .chr ':', .star isSpace,
    .group 1 (Regex.plus isDigit)]

/-- The pattern `"key"\s*:\s*"([^"]*)"`. -/
def rxStrField (key : Str) : Regex :=
  Regex.cat [Regex.lit (['"'] ++ key ++ ['"']), .star isSpace, .chr ':', .star isSpace,
    .chr '"', .group 1 (.star notQuote), .chr '"']

def ParseRemoteJson (json : Str) (out : RemoteLatest) : Except Exn (Bool × RemoteLatest) :=
  let cyc := RegGet json (rxNumField "airac_cycle".toList)
  let ver := RegGet json (rxNumField "airac_version".toList)
  let pver := RegGet json (rxNumField "package_version".toList)
  let name := RegGet json (rxStrField "latest_package_name".toList)
  let url := RegGet json (rxStrField "download_url".toList)
  let nts := RegGet json (rxStrField "notes".toList)
  if cyc = [] ∨ ver = [] then .ok (false, out)
  else do
    let c ← stoi cyc
    let v ← stoi ver
    let p ← if pver = [] then pure 0 else stoi pver
    pure (true, { airac_cycle := c, airac_version := v, package_version := p,
                  latest_package_name := name, download_url := url, notes := nts })

/-! ## The plug-in object, the host and the callbacks -/

/-- The text `os << v` writes for an `int`. -/
def ToString (v : Int) : Str :=
  if v < 0 then '-' :: Nat.toDigits 10 v.natAbs else Nat.toDigits 10 v.natAbs

/-- Model of `HttpGet`: the argument is what the network delivers (`none`
when the request fails, else the bytes read); the result is the returned
flag, which is `!bodyOut.empty()`, and `bodyOut`. -/
def HttpGet (response : Option Str) : Bool × Str :=
  match response with
  | none => (false, [])
  | some body => (!body.isEmpty, body)

/-- The data members of the `BGvACC` object, and the function-local static
`firstTick` of `OnTimer`. -/
structure Plugin where
  m_LastCheckCounter : Int
  m_IntervalSec : Int
  m_AutoChecksStopped : Bool
  m_LastDownloadUrl : Str
  m_LastConnType : Int
  m_OnlineSeconds : Int
  m_ReminderMinutes : Int
  m_NextReminderAtSec : Int
  m_LastReminderBucket : Int
  m_WelcomeShown : Bool
  firstTick : Bool
  deriving DecidableEq

/-- The object as the constructor leaves it. -/
def Plugin.init : Plugin where
  m_LastCheckCounter := 0
  m_IntervalSec := 5
  m_AutoChecksStopped := false
  m_LastDownloadUrl := []
  m_LastConnType := -1
  m_OnlineSeconds := 0
  m_ReminderMinutes := 120
  m_NextReminderAtSec := 120 * 60
  m_LastReminderBucket := 0
  m_WelcomeShown := false
  firstTick := true

/-- What a callback does to the outside, in order. `DoCheckCalled` is a
marker recorded at each entry of `DoCheck`; the other three are the host and
OS calls of the same name. -/
inductive Effect where
  | DisplayUserMessage (handler message : Str)
      (showHandler showUnread showUnreadEvenIfBusy startFlashing needConfirmation : Bool)
  | MessageBoxA (text caption : Str)
  | ShellExecuteA (file : Str)
  | DoCheckCalled (verbose : Bool)
  deriving DecidableEq

/-- A run of a callback: the object when control leaves it, what it did, and
whether it returned (`ok`) or an exception left it (`error`). -/
structure Run (α : Type) where
  state : Plugin
  trace : List Effect
  result : Except Exn α

/-- Sequencing: the second part runs only when the first returned. -/
def Run.andThen {α β : Type} (r : Run α) (f : α → Plugin → Run β) : Run β :=
  match r.result with
  | .error e => ⟨r.state, r.trace, .error e⟩
  | .ok a => ⟨(f a r.state).state, r.trace ++ (f a r.state).trace, (f a r.state).result⟩

/-- The first string of the list that is neither a null pointer nor empty, the
empty string when there is none: the scan of all controllers in
`GetLoadedSectorName`. -/
def scanSectorNames : List (Option Str) → Str
  | [] => []
  | none :: rest => scanSectorNames rest
  | some s :: rest => if !s.isEmpty then s else scanSectorNames rest

/-- Model of `GetLoadedSectorName`. `myself` is what
`ControllerMyself().GetSectorFileName()` returns, `controllers` what
`GetSectorFileName()` returns for each controller from `ControllerSelectFirst`
on; `none` is a null pointer. -/
def GetLoadedSectorName (myself : Option Str) (controllers : List (Option Str)) : Str :=
  match myself with
  | some s => if !s.isEmpty then s else scanSectorNames controllers
  | none => scanSectorNames controllers

/-- What one `DoCheck` call reads from outside: the sector file names the host
reports and the answer to the manifest request. -/
structure CheckEnv where
  myself : Option Str
  controllers : List (Option Str)
  manifest : Option Str
  deriving DecidableEq

/-- The string `GetLoadedSectorName` returns in this environment. -/
def CheckEnv.sectorName (env : CheckEnv) : Str := GetLoadedSectorName env.myself env.controllers

/-- The environment in which the own controller slot reports the sector file
name `label` and no other controller is known. -/
def CheckEnv.ofLabel (label : Str) (manifest : Option Str) : CheckEnv :=
  ⟨some label, [], manifest⟩

def ShowUpdateAlert (text : Str) : List Effect :=
  [ .DisplayUserMessage "BGvACC".toList text true true true true true,
    .MessageBoxA text "BGvACC Updater".toList ]

/-- The comparison of step 5 of `DoCheck`. -/
def newer (remote : RemoteLatest) (loc : ParsedLocal) : Bool :=
  decide (remote.airac_cycle > loc.airac_cycle) ||
  (decide (remote.airac_cycle = loc.airac_cycle) &&
    decide (remote.airac_version > loc.airac_version)) ||
  (decide (remote.airac_cycle = loc.airac_cycle) &&
    decide (remote.airac_version = loc.airac_version) &&
    decide (remote.package_version > loc.package_version))

def msgNoSector : Effect :=
  .DisplayUserMessage "BGvACC".toList "No sector file detected yet. Connect to VATSIM.".toList
    true true false false false

def msgLocalUnparseable (sfn : Str) : Effect :=
  .DisplayUserMessage "BGvACC".toList
    ("Could not parse INFO format. Got: ".toList ++ sfn ++
      "  | Expected like: \x27... 2510/2-2 LBSR 20251013\x27".toList)
    true true false false true

def msgFetchFailed : Effect :=
  .DisplayUserMessage "BGvACC".toList "Failed to fetch manifest.".toList true true false false true

def msgManifestMalformed : Effect :=
  .DisplayUserMessage "BGvACC".toList "Manifest JSON missing fields.".toList
    true true false false true

def updateText (remote : RemoteLatest) (loc : ParsedLocal) : Str :=
  "New sector available: AIRAC ".toList ++ ToString remote.airac_cycle ++
  "/".toList ++ ToString remote.airac_version ++
  " (Package ".toList ++ ToString remote.package_version ++ "). \n".toList ++
  "You have AIRAC ".toList ++ ToString loc.airac_cycle ++
  "/".toList ++ ToString loc.airac_version ++
  " (Package ".toList ++ ToString loc.package_version ++ "). \n".toList ++
  "Type .bgvacc-update-open to get it.".toList ++
  (if remote.notes.isEmpty then [] else " \nRelease notes: ".toList ++ remote.notes)

def msgUpToDate (loc : ParsedLocal) : Effect :=
  .DisplayUserMessage "BGvACC".toList
    ("Up to date. Local AIRAC ".toList ++ ToString loc.airac_cycle ++
      "/".toList ++ ToString loc.airac_version ++
      " (Package ".toList ++ ToString loc.package_version ++ ").".toList)
    true true false false false

/-- The body of `DoCheck` after its entry. -/
def DoCheckBody (verbose : Bool) (env : CheckEnv) (st : Plugin) : Run Unit :=
  let sfn := env.sectorName
  if sfn.isEmpty then
    ⟨st, if verbose then [msgNoSector] else [], .ok ()⟩
  else
    let st1 := { st with m_AutoChecksStopped := true }
    match ParseLocalFromInfoString sfn {} with
    | .error e => ⟨st1, [], .error e⟩
    | .ok (false, _) => ⟨st1, if verbose then [msgLocalUnparseable sfn] else [], .ok ()⟩
    | .ok (true, loc) =>
      match HttpGet env.manifest with
      | (false, _) => ⟨st1, if verbose then [msgFetchFailed] else [], .ok ()⟩
      | (true, body) =>
        match ParseRemoteJson body {} with
        | .error e => ⟨st1, [], .error e⟩
        | .ok (false, _) => ⟨st1, if verbose then [msgManifestMalformed] else [], .ok ()⟩
        | .ok (true, remote) =>
          let st2 := { st1 with m_LastDownloadUrl := remote.download_url }
          if newer remote loc then
            ⟨st2, ShowUpdateAlert (updateText remote loc), .ok ()⟩
          else
            ⟨st2, if verbose then [msgUpToDate loc] else [], .ok ()⟩

def DoCheck (verbose : Bool) (env : CheckEnv) (st : Plugin) : Run Unit :=
  ⟨(DoCheckBody verbose env st).state,
   .DoCheckCalled verbose :: (DoCheckBody verbose env st).trace,
   (DoCheckBody verbose env st).result⟩

/-- The argument is the answer to the request for the welcome descriptor. -/
def ShowWelcomeIfAvailable (response : Option Str) (st : Plugin) : Plugin × List Effect :=
  if st.m_WelcomeShown then (st, [])
  else
    match HttpGet response with
    | (false, _) => (st, [])
    | (true, body) =>
      let title := RegGet body (rxStrField "title".toList)
      let msg := RegGet body (rxStrField "message".toList)
      if title.isEmpty && msg.isEmpty then (st, [])
      else
        let text := (if title.isEmpty then "BGvACC".toList else title) ++ " ".toList ++
          (if msg.isEmpty then "Welcome!".toList else msg)
        ({ st with m_WelcomeShown := true },
         [.DisplayUserMessage "BGvACC".toList text true true true true true])

def reminderText : Str := "You have been online for a long session! Time for a break.".toList

/-- The two notifications of a break reminder. -/
def reminderEffects : List Effect :=
  [ .DisplayUserMessage "Reminder".toList reminderText true true true true true,
    .MessageBoxA reminderText "BGvACC Reminder".toList ]

/-- The local `intervalSec` of `OnTimer`: `m_ReminderMinutes * 60`, raised to 60
when smaller. -/
def intervalSec (st : Plugin) : Int :=
  if wrapInt (st.m_ReminderMinutes * 60) < 60 then 60 else wrapInt (st.m_ReminderMinutes * 60)

/-- The session part of `OnTimer` (from `int ct = GetConnectionType();` to the
end); `ct` is what `GetConnectionType` returns. -/
def sessionTick (ct : Int) (st : Plugin) : Plugin × List Effect :=
  let wentOnline := (st.m_LastConnType = 0 ∨ st.m_LastConnType = -1) ∧ ct ≠ 0
  let st1 := if wentOnline then { st with m_OnlineSeconds := 0, m_LastReminderBucket := 0 } else st
  if ct ≠ 0 then
    let online := wrapInt (st1.m_OnlineSeconds + 1)
    let bucket := Int.tdiv online (intervalSec st1)
    if bucket > st1.m_LastReminderBucket then
      ({ st1 with m_OnlineSeconds := online, m_LastReminderBucket := bucket,
                  m_LastConnType := ct }, reminderEffects)
    else
      ({ st1 with m_OnlineSeconds := online, m_LastConnType := ct }, [])
  else
    ({ st1 with m_OnlineSeconds := 0, m_LastReminderBucket := 0, m_LastConnType := ct }, [])

/-- What one `OnTimer` call reads from outside. The first-tick check and the
periodic check each query the host and the network on their own. -/
structure TimerEnv where
  welcome : Option Str
  firstCheck : CheckEnv
  periodicCheck : CheckEnv
  connectionType : Int
  deriving DecidableEq

/-- No sector loaded, no network. -/
def noSector : CheckEnv := CheckEnv.ofLabel [] none

/-- A tick with no sector loaded and no network, with connection type `ct`. -/
def idleTick (ct : Int) : TimerEnv := ⟨none, noSector, noSector, ct⟩

/-- The `if (firstTick)` block of `OnTimer`. -/
def firstTickBlock (env : TimerEnv) (st : Plugin) : Run Unit :=
  if st.firstTick then
    let w := ShowWelcomeIfAvailable env.welcome { st with firstTick := false }
    Run.andThen (Run.andThen (⟨w.1, w.2, .ok ()⟩ : Run Unit) (fun _ s => DoCheck true env.firstCheck s))
      (fun _ s => ⟨s, [.DisplayUserMessage "BGvACC".toList
        "To run a manual check: .bgvacc-update-check".toList true true false false false], .ok ()⟩)
  else ⟨st, [], .ok ()⟩

/-- The `if (!m_AutoChecksStopped)` block of `OnTimer`. -/
def periodicBlock (Counter : Int) (env : TimerEnv) (st : Plugin) : Run Unit :=
  if !st.m_AutoChecksStopped then
    if wrapInt (Counter - st.m_LastCheckCounter) ≥ st.m_IntervalSec then
      Run.andThen (DoCheck false env.periodicCheck st)
        (fun _ s => ⟨{ s with m_LastCheckCounter := Counter }, [], .ok ()⟩)
    else ⟨st, [], .ok ()⟩
  else ⟨st, [], .ok ()⟩

def OnTimer (Counter : Int) (env : TimerEnv) (st : Plugin) : Run Unit :=
  Run.andThen (Run.andThen (firstTickBlock env st) (fun _ s => periodicBlock Counter env s))
    (fun _ s => ⟨(sessionTick env.connectionType s).1, (sessionTick env.connectionType s).2, .ok ()⟩)

/-- The text the `.bgvacc-status` command builds. -/
def statusRun (env : CheckEnv) (st : Plugin) : Run Str :=
  let sfn := env.sectorName
  let head := "[Local] Sector string: ".toList ++ (if sfn.isEmpty then "<none>".toList else sfn) ++
    " ".toList
  let localPart : Except Exn Str :=
    if sfn.isEmpty then .ok "Could not parse INFO format. ".toList
    else
      match ParseLocalFromInfoString sfn {} with
      | .error e => .error e
      | .ok (false, _) => .ok "Could not parse INFO format. ".toList
      | .ok (true, loc) =>
        .ok ("AIRAC ".toList ++ ToString loc.airac_cycle ++ "/".toList ++
          ToString loc.airac_version ++ " (Package ".toList ++
          ToString loc.package_version ++ "). ".toList)
  let remotePart : Except Exn Str :=
    match HttpGet env.manifest with
    | (false, _) => .ok " <fetch/parse failed>".toList
    | (true, body) =>
      match ParseRemoteJson body {} with
      | .error e => .error e
      | .ok (false, _) => .ok " <fetch/parse failed>".toList
      | .ok (true, remote) =>
        .ok (" AIRAC ".toList ++ ToString remote.airac_cycle ++ "/".toList ++
          ToString remote.airac_version ++ " (Package ".toList ++
          ToString remote.package_version ++ ") ".toList ++ "Name: ".toList ++
          (if remote.latest_package_name.isEmpty then "<none> ".toList
           else remote.latest_package_name) ++ " ".toList)
  match localPart with
  | .error e => ⟨st, [], .error e⟩
  | .ok l =>
    match remotePart with
    | .error e => ⟨st, [], .error e⟩
    | .ok r => ⟨st, [], .ok (head ++ l ++ "[Remote]".toList ++ r)⟩

/-- The argument `sLine` is `none` for a null pointer. -/
def OnCompileCommand (sLine : Option Str) (env : CheckEnv) (st : Plugin) : Run Bool :=
  let line := sLine.getD []
  if line = ".bgvacc-update-check".toList then
    Run.andThen (DoCheck true env st) (fun _ s => ⟨s, [], .ok true⟩)
  else if line = ".bgvacc-update-open".toList then
    if !st.m_LastDownloadUrl.isEmpty then ⟨st, [.ShellExecuteA st.m_LastDownloadUrl], .ok true⟩
    else ⟨st, [.DisplayUserMessage "BGvACC".toList "No download URL in manifest.".toList
      true true false false false], .ok true⟩
  else if line = ".bgvacc-status".toList then
    Run.andThen (statusRun env st)
      (fun text s => ⟨s, [.DisplayUserMessage "BGvACC".toList text true true false false false],
        .ok true⟩)
  else if line = ".bgvacc-hey".toList then
    ⟨st, [.DisplayUserMessage "???".toList "Zdravei! Welcome to BGvACC!".toList
      true true false false false], .ok true⟩
  else if line = ".bgvacc-coffee".toList then
    ⟨st, [.DisplayUserMessage "???".toList "Coffee delivered to your scope. Clear skies!".toList
      true true false false false,
      .MessageBoxA "Coffee delivered to your scope. Clear skies!".toList "BGvACC Café".toList],
      .ok true⟩
  else if line = ".bgvacc-falcon".toList then
    ⟨st, [.DisplayUserMessage "???".toList "The BGvACC falcon watches over your skies.".toList
      true true false false false], .ok true⟩
  else ⟨st, [], .ok false⟩

/-- The words a pattern matches, stated without reference to the matcher. -/
def Regex.lang : Regex → Str → Prop
  | .eps, w => w = []
  | .chr c, w => w = [c]
  | .cls p, w => ∃ c, p c = true ∧ w = [c]
  | .star p, w => ∀ c ∈ w, p c = true
  | .seq a b, w => ∃ u v, w = u ++ v ∧ Regex.lang a u ∧ Regex.lang b v
  | .opt a, w => w = [] ∨ Regex.lang a w
  | .group _ a, w => Regex.lang a w

/-- `m` is the first match the matcher finds for `rx` from state `st`. -/
def HeadIs (rx : Regex) (st m : MatchState) : Prop := ∃ tl, rx.run st = m :: tl

/-- The input does not start with a character of class `p`. -/
def StopsAt (p : Char → Bool) (rest : Str) : Prop := ∀ x xs, rest = x :: xs → p x = false

/-- Every character of `w` is in class `p`. -/
def AllOf (p : Char → Bool) (w : Str) : Prop := ∀ c ∈ w, p c = true

/-- The text `"key" : digits` with the white space `ws1` before and `ws2` after the colon. -/
def numFieldText (key ws1 ws2 ds : Str) : Str :=
  ['"'] ++ key ++ ['"'] ++ ws1 ++ [':'] ++ ws2 ++ ds

/-- `w` is a numeric field named `key`: the quoted key, optional white space, a
colon, optional white space, one or more digits. -/
def IsNumField (key w : Str) : Prop :=
  ∃ ws1 ws2 ds, AllOf isSpace ws1 ∧ AllOf isSpace ws2 ∧ ds ≠ [] ∧ AllOf isDigit ds ∧
    w = numFieldText key ws1 ws2 ds

/-- The text `"key" : "val"`. -/
def strFieldText (key ws1 ws2 val : Str) : Str :=
  ['"'] ++ key ++ ['"'] ++ ws1 ++ [':'] ++ ws2 ++ ['"'] ++ val ++ ['"']

/-- `w` is a text field named `key`: the quoted key, optional white space, a
colon, optional white space, and a quoted value without a quote inside. -/
def IsStrField (key w : Str) : Prop :=
  ∃ ws1 ws2 val, AllOf isSpace ws1 ∧ AllOf isSpace ws2 ∧ AllOf notQuote val ∧
    w = strFieldText key ws1 ws2 val

/-- The pieces of a text the pattern of `ParseLocalFromInfoString` matches:
`25yy ws1 / ws2 revision [-patch] ws3 code ws4 20date`. -/
structure LabelParts where
  yy : Str
  ws1 : Str
  ws2 : Str
  revision : Str
  patch : Option Str
  ws3 : Str
  code : Str
  ws4 : Str
  date : Str

/-- The cycle token, `25` and two more digits. -/
def LabelParts.cycle (l : LabelParts) : Str := '2' :: '5' :: l.yy

/-- The optional dash group. -/
def LabelParts.dash (l : LabelParts) : Str :=
  match l.patch with
  | none => []
  | some p => '-' :: p

/-- The date token, `20` and six more digits. -/
def LabelParts.fullDate (l : LabelParts) : Str := '2' :: '0' :: l.date

/-- The text made of the pieces. -/
def LabelParts.text (l : LabelParts) : Str :=
  l.cycle ++ l.ws1 ++ ['/'] ++ l.ws2 ++ l.revision ++ l.dash ++ l.ws3 ++ l.code ++ l.ws4 ++
    l.fullDate

/-- The pieces have the shape the pattern asks for. -/
structure LabelParts.Valid (l : LabelParts) : Prop where
  yy_len : l.yy.length = 2
  yy_digits : AllOf isDigit l.yy
  ws1_space : AllOf isSpace l.ws1
  ws2_space : AllOf isSpace l.ws2
  rev_ne : l.revision ≠ []
  rev_digits : AllOf isDigit l.revision
  patch_ok : ∀ p, l.patch = some p → p ≠ [] ∧ AllOf isDigit p
  ws3_ne : l.ws3 ≠ []
  ws3_space : AllOf isSpace l.ws3
  code_len : l.code.length = 4
  code_upper : AllOf isUpperAZ l.code
  ws4_ne : l.ws4 ≠ []
  ws4_space : AllOf isSpace l.ws4
  date_len : l.date.length = 6
  date_digits : AllOf isDigit l.date

/-- The capture groups of a match of the pieces, latest first. -/
def LabelParts.groups (l : LabelParts) : List (Nat × Str) :=
  (4, l.fullDate) :: ((match l.patch with
    | none => []
    | some p => [(3, p)]) ++ [(2, l.revision), (1, l.cycle)])

/-- `w` is a label the pattern of `ParseLocalFromInfoString` matches. -/
def IsLabel (w : Str) : Prop := ∃ l : LabelParts, l.Valid ∧ w = l.text

/-- In `s`, no word of `L` starts before the end of the prefix `pre`. -/
def NoEarlier (L : Str → Prop) (s pre : Str) : Prop :=
  ∀ pre' w' post', s = pre' ++ w' ++ post' → L w' → pre.length ≤ pre'.length

def LabelParts.cycleValue (l : LabelParts) : Int := decimalValue l.cycle

def LabelParts.revisionValue (l : LabelParts) : Int := decimalValue l.revision

/-- Value of the patch token, 0 when there is no dash group. -/
def LabelParts.patchValue (l : LabelParts) : Int :=
  match l.patch with
  | none => 0
  | some p => decimalValue p

/-- `s` contains a label the pattern matches. -/
def HasLabel (s : Str) : Prop := ∃ pre w post, s = pre ++ w ++ post ∧ IsLabel w

/-- The pieces `l` are a label in `s` and no label of `s` starts further left. -/
def FirstLabel (s : Str) (l : LabelParts) : Prop :=
  l.Valid ∧ ∃ pre post, s = pre ++ l.text ++ post ∧ NoEarlier IsLabel s pre

/-- The body contains a numeric field named `key`. -/
def HasNumField (key body : Str) : Prop := ∃ pre w post, body = pre ++ w ++ post ∧ IsNumField key w

/-- The digit run `ds` is the value of the first numeric field named `key` in the
body: no such field starts further left, and the run is not followed by a digit. -/
def FirstNumField (key body ds : Str) : Prop :=
  ∃ pre ws1 ws2 post, body = pre ++ numFieldText key ws1 ws2 ds ++ post ∧
    AllOf isSpace ws1 ∧ AllOf isSpace ws2 ∧ ds ≠ [] ∧ AllOf isDigit ds ∧
    StopsAt isDigit post ∧ NoEarlier (IsNumField key) body pre

/-- The body contains a text field named `key`. -/
def HasStrField (key body : Str) : Prop := ∃ pre w post, body = pre ++ w ++ post ∧ IsStrField key w

/-- The text `val` is the quoted value of the first text field named `key` in the body. -/
def FirstStrField (key body val : Str) : Prop :=
  ∃ pre ws1 ws2 post, body = pre ++ strFieldText key ws1 ws2 val ++ post ∧
    AllOf isSpace ws1 ∧ AllOf isSpace ws2 ∧ AllOf notQuote val ∧
    NoEarlier (IsStrField key) body pre

/-- The session part of consecutive ticks: the object after the last tick and
what each tick did. -/
def sessionRun : Plugin → List Int → Plugin × List (List Effect)
  | st, [] => (st, [])
  | st, ct :: cts =>
    ((sessionRun (sessionTick ct st).1 cts).1,
     (sessionTick ct st).2 :: (sessionRun (sessionTick ct st).1 cts).2)

/-- A state in the middle of a session: `j` connected ticks so far, with interval `I`. -/
def InSession (I : Nat) (st : Plugin) (j : Nat) : Prop :=
  st.m_LastConnType ≠ 0 ∧ st.m_LastConnType ≠ -1 ∧ st.m_OnlineSeconds = (j : Int) ∧
    st.m_LastReminderBucket = ((j / I : Nat) : Int)

/-- Either at the start of a session (`j = 0`, the last tick was offline or
there was none) or `j` ticks into one. -/
def Ready (I : Nat) (st : Plugin) (j : Nat) : Prop :=
  (j = 0 ∧ (st.m_LastConnType = 0 ∨ st.m_LastConnType = -1)) ∨ InSession I st j

/-- An effect that is not an entry marker of `DoCheck`. -/
def Effect.isCall : Effect → Bool
  | .DoCheckCalled _ => true
  | _ => false

/-- The run leaves the periodic checks stopped and made no periodic check. -/
def KeepsStopped {α : Type} (r : Run α) : Prop :=
  r.state.m_AutoChecksStopped = true ∧ Effect.DoCheckCalled false ∉ r.trace

instance instDecidableAllOf (p : Char → Bool) (w : Str) : Decidable (AllOf p w) :=
  inferInstanceAs (Decidable (∀ c ∈ w, p c = true))

/-- `newerTriple a b`: `DoCheck` finds the remote triple `b` newer than the local
triple `a`; a triple is (cycle, revision, patch). -/
def newerTriple (a b : Int × Int × Int) : Prop :=
  newer { airac_cycle := b.1, airac_version := b.2.1, package_version := b.2.2 }
        { airac_cycle := a.1, airac_version := a.2.1, package_version := a.2.2 } = true

instance instDecidableNewerTriple (a b : Int × Int × Int) : Decidable (newerTriple a b) :=
  inferInstanceAs (Decidable (newer _ _ = true))

/-- The pieces of the shape as the specification words it: a 4-digit cycle, a
slash, a revision, optionally a dash and a patch, white space, a 4-letter code,
white space, an 8-digit date. -/
structure SpecLabelParts where
  cycle : Str
  revision : Str
  patch : Option Str
  ws1 : Str
  code : Str
  ws2 : Str
  date : Str

/-- The text made of the pieces of the specification's shape. -/
def SpecLabelParts.text (l : SpecLabelParts) : Str :=
  l.cycle ++ ['/'] ++ l.revision ++
    (match l.patch with
     | none => []
     | some p => '-' :: p) ++ l.ws1 ++ l.code ++ l.ws2 ++ l.date

/-- The pieces have the shape the specification describes. -/
structure SpecLabelParts.Valid (l : SpecLabelParts) : Prop where
  cycle_len : l.cycle.length = 4
  cycle_digits : AllOf isDigit l.cycle
  rev_ne : l.revision ≠ []
  rev_digits : AllOf isDigit l.revision
  patch_ok : ∀ p, l.patch = some p → p ≠ [] ∧ AllOf isDigit p
  ws1_ne : l.ws1 ≠ []
  ws1_space : AllOf isSpace l.ws1
  code_len : l.code.length = 4
  code_letters : AllOf Char.isAlpha l.code
  ws2_ne : l.ws2 ≠ []
  ws2_space : AllOf isSpace l.ws2
  date_len : l.date.length = 8
  date_digits : AllOf isDigit l.date

/-- The string contains a substring of the shape the specification describes. -/
def HasSpecLabel (s : Str) : Prop :=
  ∃ pre l post, SpecLabelParts.Valid l ∧ s = pre ++ l.text ++ post

/-- The pieces of the label `2510/2-2 LBSR 20251013`. -/
def sampleParts : LabelParts :=
  ⟨"10".toList, [], [], "2".toList, some "2".toList, " ".toList, "LBSR".toList, " ".toList,
    "251013".toList⟩

/-- A manifest without the cycle field. -/
def manifestNoCycle : Str := "\x7b \"airac_version\": 2, \"download_url\": \"http://x\" \x7d".toList

/-- The sector `2510/2 LBSR 20251013` is loaded and the manifest lacks the cycle. -/
def malformedEnv : CheckEnv :=
  CheckEnv.ofLabel "2510/2 LBSR 20251013".toList (some manifestNoCycle)

/-- A complete manifest. -/
def manifestFull : Str :=
  "\x7b \"airac_cycle\": 2511, \"airac_version\" : 1, \"notes\": \"hi\" \x7d".toList

/-- A manifest with a package version and a download URL, and no notes. -/
def manifestPatched : Str :=
  ("\x7b \"airac_cycle\": 2511, \"airac_version\": 1, \"package_version\" : 3, " ++
    "\"download_url\": \"http://x\" \x7d").toList

/-- The members the session part of `OnTimer` reads and writes. -/
def Plugin.session (st : Plugin) : Int × Int × Int × Int :=
  (st.m_LastConnType, st.m_OnlineSeconds, st.m_ReminderMinutes, st.m_LastReminderBucket)

/-- The effect is one of the two notifications of a break reminder. -/
def Effect.isReminder (e : Effect) : Bool := decide (e ∈ reminderEffects)

/-- Consecutive calls of `OnTimer`, each with its counter and what it reads from
outside: the object after the last call and the reminders each call raised. -/
def timerRun : Plugin → List (Int × TimerEnv) → Plugin × List (List Effect)
  | st, [] => (st, [])
  | st, tick :: rest =>
    ((timerRun (OnTimer tick.1 tick.2 st).state rest).1,
     (OnTimer tick.1 tick.2 st).trace.filter Effect.isReminder ::
       (timerRun (OnTimer tick.1 tick.2 st).state rest).2)

/-- Every call of the run returns: no exception leaves `OnTimer`. -/
def AllReturn : Plugin → List (Int × TimerEnv) → Prop
  | _, [] => True
  | st, tick :: rest =>
    (OnTimer tick.1 tick.2 st).result = .ok () ∧ AllReturn (OnTimer tick.1 tick.2 st).state rest

/-- The object as constructed, but with a reminder interval of one minute. -/
def oneMinuteStart : Plugin := { Plugin.init with m_ReminderMinutes := 1 }

/-- A session that has counted 7300 seconds and one reminder. -/
def longSession : Plugin :=
  { Plugin.init with m_LastConnType := 1, m_OnlineSeconds := 7300, m_LastReminderBucket := 1 }

/-- A call the host makes. -/
inductive Callback where
  | timer (Counter : Int) (env : TimerEnv)
  | command (sLine : Option Str) (env : CheckEnv)

/-- The object and the trace when the call is left. -/
def Callback.run (cb : Callback) (st : Plugin) : Plugin × List Effect :=
  match cb with
  | .timer Counter env => ((OnTimer Counter env st).state, (OnTimer Counter env st).trace)
  | .command sLine env =>
    ((OnCompileCommand sLine env st).state, (OnCompileCommand sLine env st).trace)

/-- A sequence of calls: the object at the end and everything done on the way. A
call that an exception leaves is followed like one that returned, from the
object as the exception left it. -/
def runCallbacks : Plugin → List Callback → Plugin × List Effect
  | st, [] => (st, [])
  | st, cb :: cbs =>
    ((runCallbacks (cb.run st).1 cbs).1, (cb.run st).2 ++ (runCallbacks (cb.run st).1 cbs).2)

/-- The host and the network at a moment when the sector
`2510/2 LBSR 20251013` is loaded and the manifest cannot be fetched. -/
def sectorLoaded : CheckEnv := CheckEnv.ofLabel "2510/2 LBSR 20251013".toList none

/-- A sector whose name holds no version label is loaded; no network. -/
def otherSector : CheckEnv := CheckEnv.ofLabel "my sector".toList none

/-- The sector `2510/99999999999 LBSR 20251013` is loaded. -/
def overflowEnv (manifest : Option Str) : CheckEnv :=
  CheckEnv.ofLabel "2510/99999999999 LBSR 20251013".toList manifest

/-- A manifest whose cycle does not fit an `int`. -/
def manifestOverflow : Str :=
  "\x7b \"airac_cycle\": 99999999999, \"airac_version\": 1 \x7d".toList

/-- A tick with the sector loaded, the manifest out of reach, while connected. -/
def tickLoaded (Counter : Int) : Callback :=
  .timer Counter ⟨none, sectorLoaded, sectorLoaded, 1⟩

/-- The six outcomes of a check, as the specification names them. -/
inductive Outcome where
  | NoSectorLoaded
  | LocalUnparseable
  | FetchFailed
  | ManifestMalformed
  | UpdateAvailable
  | UpToDate
  deriving DecidableEq

/-- The message that reports an outcome; `loc` and `remote` are the parsed
versions, used by the last two. -/
def outcomeMessage (sfn : Str) (loc : ParsedLocal) (remote : RemoteLatest) : Outcome → Effect
  | .NoSectorLoaded => msgNoSector
  | .LocalUnparseable => msgLocalUnparseable sfn
  | .FetchFailed => msgFetchFailed
  | .ManifestMalformed => msgManifestMalformed
  | .UpdateAvailable =>
    .DisplayUserMessage "BGvACC".toList (updateText remote loc) true true true true true
  | .UpToDate => msgUpToDate loc

/-- The outcome of a check, decided in the order of the specification, with the
versions it parsed; an error when a conversion throws. -/
def outcome (env : CheckEnv) : Except Exn (Outcome × ParsedLocal × RemoteLatest) :=
  if env.sectorName.isEmpty then .ok (.NoSectorLoaded, {}, {})
  else
    match ParseLocalFromInfoString env.sectorName {} with
    | .error e => .error e
    | .ok (false, _) => .ok (.LocalUnparseable, {}, {})
    | .ok (true, loc) =>
      match HttpGet env.manifest with
      | (false, _) => .ok (.FetchFailed, loc, {})
      | (true, body) =>
        match ParseRemoteJson body {} with
        | .error e => .error e
        | .ok (false, _) => .ok (.ManifestMalformed, loc, {})
        | .ok (true, remote) =>
          if newer remote loc then .ok (.UpdateAvailable, loc, remote)
          else .ok (.UpToDate, loc, remote)

/-- The `DisplayUserMessage` calls of a trace. -/
def userMessages (tr : List Effect) : List Effect :=
  tr.filter fun e =>
    match e with
    | .DisplayUserMessage _ _ _ _ _ _ _ => true
    | _ => false

/-! ## Properties -/

theorem starResults_mem (p : Char → Bool) (g : List (Nat × Str)) (inp : Str) (st : MatchState) :
    st ∈ starResults p g inp ↔
      st.groups = g ∧ ∃ w, inp = w ++ st.rest ∧ ∀ c ∈ w, p c = true := by
  induction inp with
  | nil =>
    obtain ⟨r, g'⟩ := st
    simp only [starResults, List.mem_singleton, MatchState.mk.injEq]
    constructor
    · rintro ⟨rfl, rfl⟩
      exact ⟨rfl, [], rfl, by simp⟩
    · rintro ⟨rfl, w, hw, -⟩
      simp only [List.nil_eq, List.append_eq_nil] at hw
      exact ⟨hw.2, rfl⟩
  | cons c cs ih =>
    obtain ⟨r, g'⟩ := st
    by_cases hp : p c = true
    · simp only [starResults, hp, if_true, List.mem_append, ih, List.mem_singleton,
        MatchState.mk.injEq]
      constructor
      · rintro (⟨rfl, w, hw, hall⟩ | ⟨rfl, rfl⟩)
        · refine ⟨rfl, c :: w, by simp [hw], ?_⟩
          intro x hx
          rcases List.mem_cons.1 hx with rfl | hx
          · exact hp
          · exact hall x hx
        · exact ⟨rfl, [], rfl, by simp⟩
      · rintro ⟨rfl, w, hw, hall⟩
        cases w with
        | nil => right; exact ⟨hw.symm, rfl⟩
        | cons x w =>
          left
          simp only [List.cons_append, List.cons.injEq] at hw
          exact ⟨rfl, w, hw.2, fun y hy => hall y (List.mem_cons_of_mem _ hy)⟩
    · simp only [starResults, hp, if_false, List.mem_singleton, MatchState.mk.injEq]
      simp only [Bool.false_eq_true, if_false, List.mem_singleton, MatchState.mk.injEq]
      constructor
      · rintro ⟨rfl, rfl⟩
        exact ⟨rfl, [], rfl, by simp⟩
      · rintro ⟨rfl, w, hw, hall⟩
        cases w with
        | nil => exact ⟨hw.symm, rfl⟩
        | cons x w =>
          simp only [List.cons_append, List.cons.injEq] at hw
          exact absurd (hall x (List.mem_cons_self _ _)) (hw.1 ▸ hp)

theorem run_sound (rx : Regex) : ∀ (st st' : MatchState), st' ∈ rx.run st →
    ∃ w, st.rest = w ++ st'.rest ∧ rx.lang w := by
  induction rx with
  | eps =>
    intro st st' h
    simp only [Regex.run, List.mem_singleton] at h
    subst h
    exact ⟨[], rfl, rfl⟩
  | chr c =>
    intro st st' h
    obtain ⟨r, g⟩ := st
    cases r with
    | nil => simp [Regex.run] at h
    | cons x xs =>
      simp only [Regex.run] at h
      by_cases hx : x = c
      · simp only [hx, if_true, List.mem_singleton] at h
        subst h
        exact ⟨[c], by simp [hx], rfl⟩
      · simp [hx] at h
  | cls p =>
    intro st st' h
    obtain ⟨r, g⟩ := st
    cases r with
    | nil => simp [Regex.run] at h
    | cons x xs =>
      simp only [Regex.run] at h
      by_cases hx : p x = true
      · simp only [hx, if_true, List.mem_singleton] at h
        subst h
        exact ⟨[x], by simp, x, hx, rfl⟩
      · simp [hx] at h
  | star p =>
    intro st st' h
    simp only [Regex.run] at h
    obtain ⟨-, w, hw, hall⟩ := (starResults_mem p _ _ _).1 h
    exact ⟨w, hw, hall⟩
  | seq a b iha ihb =>
    intro st st' h
    simp only [Regex.run, List.mem_flatMap] at h
    obtain ⟨mid, hmid, h'⟩ := h
    obtain ⟨u, hu, hlu⟩ := iha _ _ hmid
    obtain ⟨v, hv, hlv⟩ := ihb _ _ h'
    exact ⟨u ++ v, by rw [hu, hv, List.append_assoc], u, v, rfl, hlu, hlv⟩
  | opt a iha =>
    intro st st' h
    simp only [Regex.run, List.mem_append, List.mem_singleton] at h
    rcases h with h | rfl
    · obtain ⟨w, hw, hl⟩ := iha _ _ h
      exact ⟨w, hw, Or.inr hl⟩
    · exact ⟨[], rfl, Or.inl rfl⟩
  | group k a iha =>
    intro st st' h
    simp only [Regex.run, List.mem_map] at h
    obtain ⟨m, hm, rfl⟩ := h
    exact iha st m hm

theorem run_complete (rx : Regex) : ∀ (w rest : Str) (g : List (Nat × Str)), rx.lang w →
    ∃ st' ∈ rx.run ⟨w ++ rest, g⟩, st'.rest = rest := by
  induction rx with
  | eps =>
    intro w rest g h
    simp only [Regex.lang] at h
    subst h
    exact ⟨⟨rest, g⟩, by simp [Regex.run], rfl⟩
  | chr c =>
    intro w rest g h
    simp only [Regex.lang] at h
    subst h
    exact ⟨⟨rest, g⟩, by simp [Regex.run], rfl⟩
  | cls p =>
    intro w rest g h
    obtain ⟨c, hc, rfl⟩ := h
    exact ⟨⟨rest, g⟩, by simp [Regex.run, hc], rfl⟩
  | star p =>
    intro w rest g h
    refine ⟨⟨rest, g⟩, ?_, rfl⟩
    simp only [Regex.run]
    exact (starResults_mem p g _ _).2 ⟨rfl, w, rfl, h⟩
  | seq a b iha ihb =>
    intro w rest g h
    obtain ⟨u, v, rfl, hu, hv⟩ := h
    obtain ⟨m, hm, hmr⟩ := iha u (v ++ rest) g hu
    obtain ⟨m', hm', hmr'⟩ := ihb v rest m.groups hv
    refine ⟨m', ?_, hmr'⟩
    simp only [Regex.run, List.mem_flatMap]
    refine ⟨m, by simpa [List.append_assoc] using hm, ?_⟩
    have : m = ⟨v ++ rest, m.groups⟩ := by rw [← hmr]
    rw [this]
    exact hm'
  | opt a iha =>
    intro w rest g h
    rcases h with rfl | h
    · exact ⟨⟨rest, g⟩, by simp [Regex.run], rfl⟩
    · obtain ⟨m, hm, hmr⟩ := iha w rest g h
      exact ⟨m, by simp [Regex.run, hm], hmr⟩
  | group k a iha =>
    intro w rest g h
    obtain ⟨m, hm, hmr⟩ := iha w rest g h
    refine ⟨⟨m.rest, (k, (w ++ rest).take ((w ++ rest).length - m.rest.length)) :: m.groups⟩,
      ?_, hmr⟩
    simp only [Regex.run, List.mem_map]
    exact ⟨m, hm, rfl⟩

/-- A pattern has a match at the head of the input iff a prefix of the input is in its language. -/
theorem run_ne_nil_iff (rx : Regex) (inp : Str) (g : List (Nat × Str)) :
    rx.run ⟨inp, g⟩ ≠ [] ↔ ∃ w post, inp = w ++ post ∧ rx.lang w := by
  constructor
  · intro h
    obtain ⟨m, hm⟩ := List.exists_mem_of_ne_nil _ h
    obtain ⟨w, hw, hl⟩ := run_sound rx _ _ hm
    exact ⟨w, m.rest, hw, hl⟩
  · rintro ⟨w, post, rfl, hl⟩
    obtain ⟨m, hm, -⟩ := run_complete rx w post g hl
    exact List.ne_nil_of_mem hm

theorem regex_search_eq_none_iff (rx : Regex) (s : Str) :
    regex_search rx s = none ↔ ∀ pre w post, s = pre ++ w ++ post → ¬ rx.lang w := by
  induction s with
  | nil =>
    simp only [regex_search, List.head?_eq_none_iff]
    constructor
    · intro h pre w post hs hl
      simp only [List.nil_eq, List.append_eq_nil] at hs
      obtain ⟨⟨rfl, rfl⟩, rfl⟩ := hs
      exact (run_ne_nil_iff rx [] []).2 ⟨[], [], rfl, hl⟩ h
    · intro h
      by_contra hne
      obtain ⟨w, post, hs, hl⟩ := (run_ne_nil_iff rx [] []).1 hne
      exact h [] w post (by simpa using hs) hl
  | cons c cs ih =>
    simp only [regex_search]
    cases hrun : (rx.run ⟨c :: cs, []⟩).head? with
    | some m =>
      simp only [reduceCtorEq, false_iff, not_forall, not_not]
      have hne : rx.run ⟨c :: cs, []⟩ ≠ [] := by
        intro h
        rw [h] at hrun
        simp at hrun
      obtain ⟨w, post, hs, hl⟩ := (run_ne_nil_iff rx _ _).1 hne
      exact ⟨[], w, post, by simpa using hs, hl⟩
    | none =>
      simp only [ih]
      rw [List.head?_eq_none_iff] at hrun
      constructor
      · intro h pre w post hs hl
        cases pre with
        | nil =>
          exact (run_ne_nil_iff rx (c :: cs) []).2 ⟨w, post, by simpa using hs, hl⟩ hrun
        | cons x pre =>
          simp only [List.cons_append, List.cons.injEq] at hs
          exact h pre w post hs.2 hl
      · intro h pre w post hs hl
        exact h (c :: pre) w post (by simp [hs]) hl

/-- The search skips a prefix none of whose positions has a match. -/
theorem regex_search_skip (rx : Regex) (pre t : Str)
    (h : ∀ p1 p2, pre = p1 ++ p2 → p2 ≠ [] → rx.run ⟨p2 ++ t, []⟩ = []) :
    regex_search rx (pre ++ t) = regex_search rx t := by
  induction pre with
  | nil => rfl
  | cons c cs ih =>
    have h0 := h [] (c :: cs) rfl (by simp)
    simp only [List.cons_append] at h0 ⊢
    rw [regex_search, h0]
    simp only [List.head?_nil]
    exact ih (fun p1 p2 hp hne => h (c :: p1) p2 (by simp [hp]) hne)

theorem regex_search_of_run (rx : Regex) (t : Str) (m : MatchState) (tl : List MatchState)
    (h : rx.run ⟨t, []⟩ = m :: tl) : regex_search rx t = some m := by
  cases t with
  | nil => simp [regex_search, h]
  | cons c cs => simp [regex_search, h]

theorem isSpace_not_digit {c : Char} (h : isSpace c = true) : isDigit c = false := by
  simp only [isSpace, Bool.or_eq_true, decide_eq_true_eq] at h
  rcases h with ((((h | h) | h) | h) | h) | h <;> subst h <;> decide

theorem isDigit_not_space {c : Char} (h : isDigit c = true) : isSpace c = false := by
  cases hs : isSpace c with
  | false => rfl
  | true => rw [isSpace_not_digit hs] at h; exact absurd h (by simp)

theorem isSpace_not_upper {c : Char} (h : isSpace c = true) : isUpperAZ c = false := by
  simp only [isSpace, Bool.or_eq_true, decide_eq_true_eq] at h
  rcases h with ((((h | h) | h) | h) | h) | h <;> subst h <;> decide

theorem isUpper_not_space {c : Char} (h : isUpperAZ c = true) : isSpace c = false := by
  cases hs : isSpace c with
  | false => rfl
  | true => rw [isSpace_not_upper hs] at h; exact absurd h (by simp)

theorem HeadIs.seq {a b : Regex} {st m1 m2 : MatchState} (h1 : HeadIs a st m1)
    (h2 : HeadIs b m1 m2) : HeadIs (.seq a b) st m2 := by
  obtain ⟨t1, h1⟩ := h1
  obtain ⟨t2, h2⟩ := h2
  exact ⟨t2 ++ t1.flatMap b.run, by simp [Regex.run, h1, h2]⟩

theorem HeadIs.eps (st : MatchState) : HeadIs .eps st st := ⟨[], rfl⟩

theorem HeadIs.chr (c : Char) (xs : Str) (g : List (Nat × Str)) :
    HeadIs (.chr c) ⟨c :: xs, g⟩ ⟨xs, g⟩ := ⟨[], by simp [Regex.run]⟩

theorem HeadIs.cls {p : Char → Bool} {x : Char} (hx : p x = true) (xs : Str)
    (g : List (Nat × Str)) : HeadIs (.cls p) ⟨x :: xs, g⟩ ⟨xs, g⟩ := ⟨[], by simp [Regex.run, hx]⟩

theorem starResults_head (p : Char → Bool) (g : List (Nat × Str)) (w rest : Str)
    (hw : ∀ c ∈ w, p c = true) (hr : StopsAt p rest) :
    ∃ tl, starResults p g (w ++ rest) = ⟨rest, g⟩ :: tl := by
  induction w with
  | nil =>
    cases rest with
    | nil => exact ⟨[], rfl⟩
    | cons x xs => exact ⟨[], by simp [starResults, hr x xs rfl]⟩
  | cons c cs ih =>
    obtain ⟨tl, htl⟩ := ih (fun x hx => hw x (List.mem_cons_of_mem _ hx))
    exact ⟨tl ++ [⟨c :: (cs ++ rest), g⟩], by
      simp [starResults, hw c (List.mem_cons_self _ _), htl]⟩

theorem HeadIs.star {p : Char → Bool} {w : Str} (hw : ∀ c ∈ w, p c = true) {rest : Str}
    (hr : StopsAt p rest) (g : List (Nat × Str)) :
    HeadIs (.star p) ⟨w ++ rest, g⟩ ⟨rest, g⟩ := by
  obtain ⟨tl, h⟩ := starResults_head p g w rest hw hr
  exact ⟨tl, by simp [Regex.run, h]⟩

theorem HeadIs.plus {p : Char → Bool} {w : Str} (hne : w ≠ []) (hw : ∀ c ∈ w, p c = true)
    {rest : Str} (hr : StopsAt p rest) (g : List (Nat × Str)) :
    HeadIs (Regex.plus p) ⟨w ++ rest, g⟩ ⟨rest, g⟩ := by
  cases w with
  | nil => exact absurd rfl hne
  | cons c cs =>
    exact HeadIs.seq (HeadIs.cls (hw c (List.mem_cons_self _ _)) _ g)
      (HeadIs.star (fun x hx => hw x (List.mem_cons_of_mem _ hx)) hr g)

theorem HeadIs.times {p : Char → Bool} : ∀ (n : Nat) (w : Str), w.length = n →
    (∀ c ∈ w, p c = true) → ∀ (rest : Str) (g : List (Nat × Str)),
    HeadIs (Regex.times n p) ⟨w ++ rest, g⟩ ⟨rest, g⟩
  | 0, w, hl, _, rest, g => by
    have : w = [] := List.length_eq_zero.1 hl
    subst this
    exact HeadIs.eps _
  | n + 1, w, hl, hw, rest, g => by
    cases w with
    | nil => simp at hl
    | cons c cs =>
      have := HeadIs.times n cs (by simpa using hl) (fun x hx => hw x (List.mem_cons_of_mem _ hx))
        rest g
      exact HeadIs.seq (HeadIs.cls (hw c (List.mem_cons_self _ _)) _ g) this

theorem HeadIs.lit : ∀ (s rest : Str) (g : List (Nat × Str)),
    HeadIs (Regex.lit s) ⟨s ++ rest, g⟩ ⟨rest, g⟩
  | [], _, _ => HeadIs.eps _
  | c :: cs, rest, g => HeadIs.seq (HeadIs.chr c _ g) (HeadIs.lit cs rest g)

theorem HeadIs.group {a : Regex} {w rest : Str} {g g' : List (Nat × Str)} (k : Nat)
    (h : HeadIs a ⟨w ++ rest, g⟩ ⟨rest, g'⟩) :
    HeadIs (.group k a) ⟨w ++ rest, g⟩ ⟨rest, (k, w) :: g'⟩ := by
  obtain ⟨tl, h⟩ := h
  refine ⟨tl.map fun st' =>
    ⟨st'.rest, (k, (w ++ rest).take ((w ++ rest).length - st'.rest.length)) :: st'.groups⟩, ?_⟩
  simp [Regex.run, h]

theorem HeadIs.opt_some {a : Regex} {st m : MatchState} (h : HeadIs a st m) :
    HeadIs (.opt a) st m := by
  obtain ⟨tl, h⟩ := h
  exact ⟨tl ++ [st], by simp [Regex.run, h]⟩

theorem HeadIs.opt_none {a : Regex} {st : MatchState} (h : a.run st = []) :
    HeadIs (.opt a) st st := ⟨[], by simp [Regex.run, h]⟩

theorem lang_cat_nil (w : Str) : (Regex.cat []).lang w ↔ w = [] := Iff.rfl

theorem lang_cat_cons (r : Regex) (rs : List Regex) (w : Str) :
    (Regex.cat (r :: rs)).lang w ↔ ∃ u v, w = u ++ v ∧ r.lang u ∧ (Regex.cat rs).lang v :=
  Iff.rfl

theorem lang_plus (p : Char → Bool) (w : Str) :
    (Regex.plus p).lang w ↔ w ≠ [] ∧ ∀ c ∈ w, p c = true := by
  simp only [Regex.plus, Regex.lang]
  constructor
  · rintro ⟨u, v, rfl, ⟨c, hc, rfl⟩, hv⟩
    refine ⟨by simp, ?_⟩
    intro x hx
    simp only [List.singleton_append, List.mem_cons] at hx
    rcases hx with rfl | hx
    · exact hc
    · exact hv x hx
  · rintro ⟨hne, hall⟩
    cases w with
    | nil => exact absurd rfl hne
    | cons c cs =>
      exact ⟨[c], cs, rfl, ⟨c, hall c (List.mem_cons_self _ _), rfl⟩,
        fun x hx => hall x (List.mem_cons_of_mem _ hx)⟩

theorem lang_times (p : Char → Bool) : ∀ (n : Nat) (w : Str),
    (Regex.times n p).lang w ↔ w.length = n ∧ ∀ c ∈ w, p c = true
  | 0, w => by
    simp only [Regex.times, List.replicate, Regex.cat, Regex.lang]
    constructor
    · rintro rfl
      simp
    · rintro ⟨h, -⟩
      exact List.length_eq_zero.1 h
  | n + 1, w => by
    have ih := lang_times p n
    simp only [Regex.times] at ih
    simp only [Regex.times, List.replicate, Regex.cat, Regex.lang]
    constructor
    · rintro ⟨u, v, rfl, ⟨c, hc, rfl⟩, hv⟩
      obtain ⟨hl, hall⟩ := (ih v).1 hv
      refine ⟨by simp [hl], ?_⟩
      intro x hx
      simp only [List.singleton_append, List.mem_cons] at hx
      rcases hx with rfl | hx
      · exact hc
      · exact hall x hx
    · rintro ⟨hl, hall⟩
      cases w with
      | nil => simp at hl
      | cons c cs =>
        exact ⟨[c], cs, rfl, ⟨c, hall c (List.mem_cons_self _ _), rfl⟩,
          (ih cs).2 ⟨by simpa using hl, fun x hx => hall x (List.mem_cons_of_mem _ hx)⟩⟩

theorem lang_lit : ∀ (s w : Str), (Regex.lit s).lang w ↔ w = s
  | [], w => Iff.rfl
  | c :: cs, w => by
    have ih := lang_lit cs
    simp only [Regex.lit] at ih
    simp only [Regex.lit, List.map, Regex.cat, Regex.lang]
    constructor
    · rintro ⟨u, v, rfl, rfl, hv⟩
      rw [(ih v).1 hv]
      rfl
    · rintro rfl
      exact ⟨[c], cs, rfl, rfl, (ih cs).2 rfl⟩

theorem stopsAt_cons {p : Char → Bool} {x : Char} (h : p x = false) (xs : Str) :
    StopsAt p (x :: xs) := by
  intro y ys e
  simp only [List.cons.injEq] at e
  rw [← e.1]
  exact h

theorem stopsAt_append {p q : Char → Bool} {w : Str} (hne : w ≠ []) (hw : AllOf q w)
    (hq : ∀ c, q c = true → p c = false) (rest : Str) : StopsAt p (w ++ rest) := by
  cases w with
  | nil => exact absurd rfl hne
  | cons c cs => exact stopsAt_cons (hq c (hw c (List.mem_cons_self _ _))) _

theorem lang_chr (c : Char) (w : Str) : (Regex.chr c).lang w ↔ w = [c] := Iff.rfl

theorem lang_star (p : Char → Bool) (w : Str) : (Regex.star p).lang w ↔ AllOf p w := Iff.rfl

theorem lang_group (k : Nat) (a : Regex) (w : Str) : (Regex.group k a).lang w ↔ a.lang w :=
  Iff.rfl

theorem lang_opt (a : Regex) (w : Str) : (Regex.opt a).lang w ↔ w = [] ∨ a.lang w := Iff.rfl

theorem lang_rxNumField (key w : Str) : (rxNumField key).lang w ↔ IsNumField key w := by
  simp only [rxNumField, lang_cat_cons, lang_cat_nil, lang_lit, lang_chr, lang_star, lang_group,
    lang_plus, IsNumField, numFieldText]
  constructor
  · rintro ⟨u1, v1, rfl, rfl, u2, v2, rfl, h2, u3, v3, rfl, rfl, u4, v4, rfl, h4, u5, v5, rfl,
      ⟨hne, hd⟩, rfl⟩
    exact ⟨u2, u4, u5, h2, h4, hne, hd, by simp⟩
  · rintro ⟨ws1, ws2, ds, h1, h2, hne, hd, rfl⟩
    exact ⟨_, _, by simp, rfl, ws1, _, rfl, h1, [':'], _, rfl, rfl, ws2, _, rfl, h2, ds, [],
      rfl, ⟨hne, hd⟩, rfl⟩

theorem head_rxNumField (key : Str) {ws1 ws2 ds : Str} (h1 : AllOf isSpace ws1)
    (h2 : AllOf isSpace ws2) (hne : ds ≠ []) (hd : AllOf isDigit ds) {post : Str}
    (hp : StopsAt isDigit post) :
    HeadIs (rxNumField key) ⟨numFieldText key ws1 ws2 ds ++ post, []⟩ ⟨post, [(1, ds)]⟩ := by
  have e : numFieldText key ws1 ws2 ds ++ post =
      (['"'] ++ key ++ ['"']) ++ (ws1 ++ (':' :: (ws2 ++ (ds ++ post)))) := by
    simp [numFieldText]
  rw [e]
  refine HeadIs.seq (HeadIs.lit _ _ _) ?_
  refine HeadIs.seq (HeadIs.star h1 (stopsAt_cons (by decide) _) _) ?_
  refine HeadIs.seq (HeadIs.chr _ _ _) ?_
  refine HeadIs.seq (HeadIs.star h2 (stopsAt_append hne hd (fun c => isDigit_not_space) _) _) ?_
  refine HeadIs.seq (HeadIs.group 1 (HeadIs.plus hne hd hp _)) (HeadIs.eps _)

theorem lang_rxStrField (key w : Str) : (rxStrField key).lang w ↔ IsStrField key w := by
  simp only [rxStrField, lang_cat_cons, lang_cat_nil, lang_lit, lang_chr, lang_star, lang_group,
    IsStrField, strFieldText]
  constructor
  · rintro ⟨u1, v1, rfl, rfl, u2, v2, rfl, h2, u3, v3, rfl, rfl, u4, v4, rfl, h4, u5, v5, rfl,
      rfl, u6, v6, rfl, h6, u7, v7, rfl, rfl, rfl⟩
    exact ⟨u2, u4, u6, h2, h4, h6, by simp⟩
  · rintro ⟨ws1, ws2, val, h1, h2, hv, rfl⟩
    exact ⟨_, _, by simp, rfl, ws1, _, rfl, h1, [':'], _, rfl, rfl, ws2, _, rfl, h2, ['"'], _,
      rfl, rfl, val, _, rfl, hv, ['"'], [], rfl, rfl, rfl⟩

theorem head_rxStrField (key : Str) {ws1 ws2 val : Str} (h1 : AllOf isSpace ws1)
    (h2 : AllOf isSpace ws2) (hv : AllOf notQuote val) (post : Str) :
    HeadIs (rxStrField key) ⟨strFieldText key ws1 ws2 val ++ post, []⟩ ⟨post, [(1, val)]⟩ := by
  have e : strFieldText key ws1 ws2 val ++ post =
      (['"'] ++ key ++ ['"']) ++ (ws1 ++ (':' :: (ws2 ++ ('"' :: (val ++ ('"' :: post)))))) := by
    simp [strFieldText]
  rw [e]
  refine HeadIs.seq (HeadIs.lit _ _ _) ?_
  refine HeadIs.seq (HeadIs.star h1 (stopsAt_cons (by decide) _) _) ?_
  refine HeadIs.seq (HeadIs.chr _ _ _) ?_
  refine HeadIs.seq (HeadIs.star h2 (stopsAt_cons (by decide) _) _) ?_
  refine HeadIs.seq (HeadIs.chr _ _ _) ?_
  refine HeadIs.seq (HeadIs.group 1 (HeadIs.star hv (stopsAt_cons (by decide) _) _)) ?_
  exact HeadIs.seq (HeadIs.chr _ _ _) (HeadIs.eps _)

theorem lang_rxLocal (w : Str) : rxLocal.lang w ↔ IsLabel w := by
  simp only [rxLocal, lang_cat_cons, lang_cat_nil, lang_chr, lang_star, lang_group,
    lang_plus, lang_times, lang_opt, IsLabel]
  constructor
  · rintro ⟨u1, v1, rfl, ⟨a1, b1, rfl, rfl, a2, b2, rfl, rfl, a3, b3, rfl, ⟨hyl, hyd⟩, rfl⟩,
      u2, v2, rfl, h2, u3, v3, rfl, rfl, u4, v4, rfl, h4, u5, v5, rfl, ⟨h5n, h5⟩,
      u6, v6, rfl, h6, u7, v7, rfl, ⟨h7n, h7⟩, u8, v8, rfl, ⟨h8l, h8⟩, u9, v9, rfl, ⟨h9n, h9⟩,
      u10, v10, rfl, ⟨c1, d1, rfl, rfl, c2, d2, rfl, rfl, c3, d3, rfl, ⟨hdl, hdd⟩, rfl⟩, rfl⟩
    rcases h6 with rfl | ⟨e1, e2, rfl, rfl, e3, e4, rfl, ⟨hpn, hp⟩, rfl⟩
    · refine ⟨⟨a3, u2, u4, u5, none, u7, u8, u9, c3⟩, ⟨hyl, hyd, h2, h4, h5n, h5, ?_, h7n, h7, h8l,
        h8, h9n, h9, hdl, hdd⟩, ?_⟩
      · intro p hp
        cases hp
      · simp [LabelParts.text, LabelParts.cycle, LabelParts.dash, LabelParts.fullDate]
    · refine ⟨⟨a3, u2, u4, u5, some e3, u7, u8, u9, c3⟩, ⟨hyl, hyd, h2, h4, h5n, h5, ?_, h7n, h7,
        h8l, h8, h9n, h9, hdl, hdd⟩, ?_⟩
      · intro p hp'
        cases hp'
        exact ⟨hpn, hp⟩
      · simp [LabelParts.text, LabelParts.cycle, LabelParts.dash, LabelParts.fullDate]
  · rintro ⟨l, hv, rfl⟩
    refine ⟨l.cycle, _, by simp [LabelParts.text], ⟨['2'], _, rfl, rfl, ['5'], _, rfl, rfl, l.yy, [],
      by simp, ⟨hv.yy_len, hv.yy_digits⟩, rfl⟩, l.ws1, _, rfl, hv.ws1_space, ['/'], _, rfl, rfl,
      l.ws2, _, rfl, hv.ws2_space, l.revision, _, rfl, ⟨hv.rev_ne, hv.rev_digits⟩,
      l.dash, _, rfl, ?_, l.ws3, _, rfl, ⟨hv.ws3_ne, hv.ws3_space⟩, l.code, _, rfl,
      ⟨hv.code_len, hv.code_upper⟩, l.ws4, l.fullDate, rfl, ⟨hv.ws4_ne, hv.ws4_space⟩,
      l.fullDate, [], by simp, ⟨['2'], _, rfl, rfl, ['0'], _, rfl, rfl, l.date, [], by simp,
        ⟨hv.date_len, hv.date_digits⟩, rfl⟩, rfl⟩
    cases hp : l.patch with
    | none => left; simp [LabelParts.dash, hp]
    | some p =>
      right
      obtain ⟨hpn, hpd⟩ := hv.patch_ok p hp
      exact ⟨['-'], p, by simp [LabelParts.dash, hp], rfl, p, [], by simp, ⟨hpn, hpd⟩, rfl⟩

theorem run_dash_nil {x : Char} (hx : x ≠ '-') (xs : Str) (g : List (Nat × Str)) (r : Regex) :
    (Regex.cat [.chr '-', r]).run ⟨x :: xs, g⟩ = [] := by
  simp [Regex.cat, Regex.run, hx]

theorem ne_nil_of_length {w : Str} {n : Nat} (h : w.length = n + 1) : w ≠ [] := by
  intro e
  rw [e] at h
  simp at h

theorem head_rxLocal {l : LabelParts} (hv : l.Valid) (post : Str) :
    HeadIs rxLocal ⟨l.text ++ post, []⟩ ⟨post, l.groups⟩ := by
  have e : l.text ++ post = l.cycle ++ (l.ws1 ++ ('/' :: (l.ws2 ++ (l.revision ++ (l.dash ++
      (l.ws3 ++ (l.code ++ (l.ws4 ++ (l.fullDate ++ post))))))))) := by
    simp [LabelParts.text]
  rw [e]
  have hcyc : ∀ rest g, HeadIs (Regex.cat [.chr '2', .chr '5', Regex.times 2 isDigit])
      ⟨l.cycle ++ rest, g⟩ ⟨rest, g⟩ := fun rest g =>
    HeadIs.seq (HeadIs.chr _ _ _) (HeadIs.seq (HeadIs.chr _ _ _)
      (HeadIs.seq (HeadIs.times 2 l.yy hv.yy_len hv.yy_digits rest g) (HeadIs.eps _)))
  have hdate : ∀ rest g, HeadIs (Regex.cat [.chr '2', .chr '0', Regex.times 6 isDigit])
      ⟨l.fullDate ++ rest, g⟩ ⟨rest, g⟩ := fun rest g =>
    HeadIs.seq (HeadIs.chr _ _ _) (HeadIs.seq (HeadIs.chr _ _ _)
      (HeadIs.seq (HeadIs.times 6 l.date hv.date_len hv.date_digits rest g) (HeadIs.eps _)))
  have htail : ∀ g, HeadIs (Regex.cat [Regex.plus isSpace, Regex.times 4 isUpperAZ,
      Regex.plus isSpace,
      .group 4 (Regex.cat [.chr '2', .chr '0', Regex.times 6 isDigit])])
      ⟨l.ws3 ++ (l.code ++ (l.ws4 ++ (l.fullDate ++ post))), g⟩ ⟨post, (4, l.fullDate) :: g⟩ := by
    intro g
    refine HeadIs.seq (HeadIs.plus hv.ws3_ne hv.ws3_space
      (stopsAt_append (ne_nil_of_length hv.code_len) hv.code_upper
        (fun c => isUpper_not_space) _) _) ?_
    refine HeadIs.seq (HeadIs.times 4 l.code hv.code_len hv.code_upper _ _) ?_
    refine HeadIs.seq (HeadIs.plus hv.ws4_ne hv.ws4_space (stopsAt_cons (by decide) _) _) ?_
    exact HeadIs.seq (HeadIs.group 4 (hdate post g)) (HeadIs.eps _)
  refine HeadIs.seq (HeadIs.group 1 (hcyc _ _)) ?_
  refine HeadIs.seq (HeadIs.star hv.ws1_space (stopsAt_cons (by decide) _) _) ?_
  refine HeadIs.seq (HeadIs.chr _ _ _) ?_
  refine HeadIs.seq (HeadIs.star hv.ws2_space
    (stopsAt_append hv.rev_ne hv.rev_digits (fun c => isDigit_not_space) _) _) ?_
  cases hp : l.patch with
  | none =>
    have hd : l.dash = [] := by simp [LabelParts.dash, hp]
    have hg : l.groups = [(4, l.fullDate), (2, l.revision), (1, l.cycle)] := by
      simp [LabelParts.groups, hp]
    rw [hd, hg]
    refine HeadIs.seq (HeadIs.group 2 (HeadIs.plus hv.rev_ne hv.rev_digits
      (stopsAt_append hv.ws3_ne hv.ws3_space (fun c => isSpace_not_digit) _) _)) ?_
    refine HeadIs.seq (HeadIs.opt_none ?_) (htail _)
    obtain ⟨x, xs, hx⟩ := List.exists_cons_of_ne_nil hv.ws3_ne
    have hxs : isSpace x = true := hv.ws3_space x (by rw [hx]; exact List.mem_cons_self _ _)
    have hne : x ≠ '-' := by
      rintro rfl
      exact absurd hxs (by decide)
    simp only [List.nil_append, hx, List.cons_append]
    exact run_dash_nil hne _ _ _
  | some p =>
    obtain ⟨hpn, hpd⟩ := hv.patch_ok p hp
    have hd : l.dash = '-' :: p := by simp [LabelParts.dash, hp]
    have hg : l.groups = [(4, l.fullDate), (3, p), (2, l.revision), (1, l.cycle)] := by
      simp [LabelParts.groups, hp]
    rw [hd, hg]
    refine HeadIs.seq (HeadIs.group 2 (HeadIs.plus hv.rev_ne hv.rev_digits
      (stopsAt_cons (by decide) _) _)) ?_
    refine HeadIs.seq (HeadIs.opt_some ?_) (htail _)
    refine HeadIs.seq (HeadIs.chr _ _ _) ?_
    exact HeadIs.seq (HeadIs.group 3 (HeadIs.plus hpn hpd
      (stopsAt_append hv.ws3_ne hv.ws3_space (fun c => isSpace_not_digit) _) _)) (HeadIs.eps _)

theorem run_nil_of_noEarlier (rx : Regex) (pre t : Str)
    (h : NoEarlier rx.lang (pre ++ t) pre) :
    ∀ p1 p2, pre = p1 ++ p2 → p2 ≠ [] → rx.run ⟨p2 ++ t, []⟩ = [] := by
  intro p1 p2 hp hne
  by_contra hrun
  obtain ⟨w, post, hs, hl⟩ := (run_ne_nil_iff rx _ _).1 hrun
  have := h p1 w post (by rw [hp, List.append_assoc, hs, List.append_assoc]) hl
  rw [hp, List.length_append] at this
  have : p2.length = 0 := by omega
  exact hne (List.length_eq_zero.1 this)

theorem noEarlier_of_run_nil (rx : Regex) (pre t : Str)
    (h : ∀ p1 p2, pre = p1 ++ p2 → p2 ≠ [] → rx.run ⟨p2 ++ t, []⟩ = []) :
    NoEarlier rx.lang (pre ++ t) pre := by
  intro pre' w' post' hs hl
  by_contra hlt
  rw [List.append_assoc] at hs
  rcases List.append_eq_append_iff.1 hs with ⟨a, ha, hb⟩ | ⟨c, hc, hd⟩
  · rw [ha, List.length_append] at hlt
    omega
  · have hcne : c ≠ [] := by
      rintro rfl
      rw [hc] at hlt
      simp at hlt
    exact (run_ne_nil_iff rx _ _).2 ⟨w', post', by rw [← hd], hl⟩ (h pre' c hc hcne)

/-- The search returns the first match at the leftmost position that has one. -/
theorem regex_search_leftmost (rx : Regex) (pre t : Str) (m : MatchState)
    (hhead : HeadIs rx ⟨t, []⟩ m) (hleft : NoEarlier rx.lang (pre ++ t) pre) :
    regex_search rx (pre ++ t) = some m := by
  rw [regex_search_skip rx pre t (run_nil_of_noEarlier rx pre t hleft)]
  obtain ⟨tl, h⟩ := hhead
  exact regex_search_of_run rx t m tl h

theorem regex_search_some_inv (rx : Regex) : ∀ (s : Str) (m : MatchState),
    regex_search rx s = some m →
    ∃ pre t, s = pre ++ t ∧ HeadIs rx ⟨t, []⟩ m ∧ NoEarlier rx.lang s pre
  | [], m, h => by
    simp only [regex_search] at h
    refine ⟨[], [], rfl, ?_, fun _ _ _ _ _ => Nat.zero_le _⟩
    cases hr : rx.run ⟨[], []⟩ with
    | nil => rw [hr] at h; simp at h
    | cons x tl =>
      rw [hr] at h
      simp only [List.head?_cons, Option.some.injEq] at h
      exact ⟨tl, by rw [hr, h]⟩
  | c :: cs, m, h => by
    simp only [regex_search] at h
    cases hr : rx.run ⟨c :: cs, []⟩ with
    | cons x tl =>
      rw [hr] at h
      simp only [List.head?_cons, Option.some.injEq] at h
      exact ⟨[], c :: cs, rfl, ⟨tl, by rw [hr, h]⟩, fun _ _ _ _ _ => Nat.zero_le _⟩
    | nil =>
      rw [hr] at h
      simp only [List.head?_nil] at h
      obtain ⟨pre, t, hs, hh, hne⟩ := regex_search_some_inv rx cs m h
      refine ⟨c :: pre, t, by rw [hs]; rfl, hh, ?_⟩
      intro pre' w' post' hs' hl
      cases pre' with
      | nil =>
        exact absurd hr ((run_ne_nil_iff rx _ _).2 ⟨w', post', by simpa using hs', hl⟩)
      | cons x pre' =>
        simp only [List.cons_append, List.cons.injEq] at hs'
        have := hne pre' w' post' hs'.2 hl
        simp only [List.length_cons]
        omega

theorem noEarlier_congr {L L' : Str → Prop} (h : ∀ w, L w ↔ L' w) (s pre : Str) :
    NoEarlier L s pre ↔ NoEarlier L' s pre := by
  constructor
  · intro hn pre' w' post' hs hl
    exact hn pre' w' post' hs ((h w').2 hl)
  · intro hn pre' w' post' hs hl
    exact hn pre' w' post' hs ((h w').1 hl)

theorem isDigit_bounds {c : Char} (h : isDigit c = true) : 48 ≤ c.toNat ∧ c.toNat ≤ 57 := by
  simp only [isDigit, Char.isDigit, Bool.and_eq_true, decide_eq_true_eq] at h
  exact ⟨h.1, h.2⟩

theorem decimalValue_append (ds : Str) (c : Char) :
    decimalValue (ds ++ [c]) = 10 * decimalValue ds + (c.toNat - 48) := by
  simp [decimalValue, List.foldl_append]

theorem decimalValue_lt (ds : Str) (hd : AllOf isDigit ds) : decimalValue ds < 10 ^ ds.length := by
  induction ds using List.reverseRecOn with
  | nil => simp [decimalValue]
  | append_singleton ds c ih =>
    have h1 := ih (fun x hx => hd x (List.mem_append_left _ hx))
    have h2 := isDigit_bounds (hd c (by simp))
    rw [decimalValue_append, List.length_append, List.length_singleton, pow_succ]
    omega

theorem stoi_digits {ds : Str} (hne : ds ≠ []) (hd : AllOf isDigit ds) :
    stoi ds = if INT_MAX < (decimalValue ds : Int) then .error .out_of_range
      else .ok (decimalValue ds : Int) := by
  obtain ⟨c, cs, rfl⟩ := List.exists_cons_of_ne_nil hne
  have hc : isDigit c = true := hd c (List.mem_cons_self _ _)
  have hsp : isSpace c = false := isDigit_not_space hc
  have hm : c ≠ '-' := by rintro rfl; exact absurd hc (by decide)
  have hp : c ≠ '+' := by rintro rfl; exact absurd hc (by decide)
  have htw : List.takeWhile isDigit (c :: cs) = c :: cs :=
    List.takeWhile_eq_self_iff.2 (fun x hx => hd x hx)
  have hnn : ¬ ((decimalValue (c :: cs) : Int) < INT_MIN) := by
    simp only [INT_MIN]
    omega
  simp only [stoi, List.dropWhile_cons, hsp, Bool.false_eq_true, if_false, List.head?_cons,
    Option.some.injEq, hm, hp, or_self, htw, reduceCtorEq, hnn, false_or]

theorem regex_search_rxLocal_none (s : Str) : regex_search rxLocal s = none ↔ ¬ HasLabel s := by
  rw [regex_search_eq_none_iff]
  constructor
  · rintro h ⟨pre, w, post, hs, hl⟩
    exact h pre w post hs ((lang_rxLocal w).2 hl)
  · intro h pre w post hs hl
    exact h ⟨pre, w, post, hs, (lang_rxLocal w).1 hl⟩

theorem regex_search_rxLocal_first {s : Str} {l : LabelParts} (h : FirstLabel s l) :
    ∃ post, regex_search rxLocal s = some ⟨post, l.groups⟩ := by
  obtain ⟨hv, pre, post, hs, hleft⟩ := h
  refine ⟨post, ?_⟩
  have hleft' : NoEarlier rxLocal.lang (pre ++ (l.text ++ post)) pre := by
    rw [← List.append_assoc, ← hs]
    exact (noEarlier_congr lang_rxLocal s pre).2 hleft
  rw [hs, List.append_assoc]
  exact regex_search_leftmost rxLocal pre _ _ (head_rxLocal hv post) hleft'

theorem regex_search_rxLocal_some {s : Str} {m : MatchState} (h : regex_search rxLocal s = some m) :
    ∃ l, FirstLabel s l ∧ m.groups = l.groups := by
  obtain ⟨pre, t, hs, hh, hne⟩ := regex_search_some_inv rxLocal s m h
  obtain ⟨tl, hrun⟩ := hh
  obtain ⟨w, hw, hl⟩ := run_sound rxLocal ⟨t, []⟩ m (by rw [hrun]; exact List.mem_cons_self _ _)
  obtain ⟨l, hv, rfl⟩ := (lang_rxLocal w).1 hl
  simp only at hw
  obtain ⟨tl', hrun'⟩ := head_rxLocal hv m.rest
  rw [← hw, hrun] at hrun'
  simp only [List.cons.injEq] at hrun'
  refine ⟨l, ⟨hv, pre, m.rest, by rw [hs, hw, List.append_assoc],
    (noEarlier_congr lang_rxLocal s pre).1 hne⟩, ?_⟩
  rw [hrun'.1]

theorem hasLabel_first {s : Str} (h : HasLabel s) : ∃ l, FirstLabel s l := by
  cases hr : regex_search rxLocal s with
  | none => exact absurd h ((regex_search_rxLocal_none s).1 hr)
  | some m =>
    obtain ⟨l, hl, -⟩ := regex_search_rxLocal_some hr
    exact ⟨l, hl⟩

theorem groups_str_one (l : LabelParts) (post : Str) :
    (MatchState.mk post l.groups).str 1 = l.cycle := by
  cases hp : l.patch <;> simp [MatchState.str, MatchState.sub, LabelParts.groups, hp, List.lookup]

theorem groups_str_two (l : LabelParts) (post : Str) :
    (MatchState.mk post l.groups).str 2 = l.revision := by
  cases hp : l.patch <;> simp [MatchState.str, MatchState.sub, LabelParts.groups, hp, List.lookup]

theorem groups_sub_three (l : LabelParts) (post : Str) :
    (MatchState.mk post l.groups).sub 3 = l.patch := by
  cases hp : l.patch <;> simp [MatchState.sub, LabelParts.groups, hp, List.lookup]

theorem stoi_cycle {l : LabelParts} (hv : l.Valid) : stoi l.cycle = .ok l.cycleValue := by
  have hd : AllOf isDigit l.cycle := by
    intro c hc
    simp only [LabelParts.cycle, List.mem_cons] at hc
    rcases hc with rfl | rfl | hc
    · decide
    · decide
    · exact hv.yy_digits c hc
  have hlt := decimalValue_lt l.cycle hd
  have hlen : l.cycle.length = 4 := by simp [LabelParts.cycle, hv.yy_len]
  rw [hlen] at hlt
  rw [stoi_digits (by simp [LabelParts.cycle]) hd, if_neg]
  · rfl
  · simp only [INT_MAX]
    omega

/-- The result of `ParseLocalFromInfoString` on a string whose leftmost label is `l`. -/
theorem parseLocal_of_first {s : Str} {l : LabelParts} (h : FirstLabel s l) (out : ParsedLocal) :
    ParseLocalFromInfoString s out =
      if INT_MAX < l.revisionValue ∨ INT_MAX < l.patchValue then .error .out_of_range
      else .ok (true, ⟨l.cycleValue, l.revisionValue, l.patchValue, s⟩) := by
  obtain ⟨post, hsearch⟩ := regex_search_rxLocal_first h
  have hv := h.1
  simp only [ParseLocalFromInfoString, hsearch, groups_str_one, groups_str_two, groups_sub_three,
    stoi_cycle hv, stoi_digits hv.rev_ne hv.rev_digits]
  by_cases hr : INT_MAX < l.revisionValue
  · have hr' : INT_MAX < (decimalValue l.revision : Int) := hr
    simp only [hr, hr', true_or, if_true]
    rfl
  · have hr' : ¬ INT_MAX < (decimalValue l.revision : Int) := hr
    cases hp : l.patch with
    | none =>
      have hpv : l.patchValue = 0 := by simp [LabelParts.patchValue, hp]
      simp only [hr, hr', hpv, if_false, false_or, Option.isSome_none, Bool.false_eq_true]
      have : ¬ INT_MAX < (0 : Int) := by decide
      simp only [this, if_false]
      rfl
    | some p =>
      obtain ⟨hpn, hpd⟩ := hv.patch_ok p hp
      have hpv : l.patchValue = (decimalValue p : Int) := by simp [LabelParts.patchValue, hp]
      have hstr : (MatchState.mk post l.groups).str 3 = p := by
        simp [MatchState.str, groups_sub_three, hp]
      simp only [hr, hr', hpv, if_false, false_or, Option.isSome_some, if_true, hstr,
        stoi_digits hpn hpd]
      by_cases hpp : INT_MAX < (decimalValue p : Int)
      · simp only [hpp, if_true]
        rfl
      · simp only [hpp, if_false]
        rfl

theorem parseLocal_false_iff (s : Str) (out o : ParsedLocal) :
    ParseLocalFromInfoString s out = .ok (false, o) ↔ o = out ∧ ¬ HasLabel s := by
  cases hr : regex_search rxLocal s with
  | none =>
    have := (regex_search_rxLocal_none s).1 hr
    simp only [ParseLocalFromInfoString, hr, Except.ok.injEq, Prod.mk.injEq, true_and, this,
      not_false_eq_true, and_true]
    exact eq_comm
  | some m =>
    obtain ⟨l, hl, -⟩ := regex_search_rxLocal_some hr
    have hhas : HasLabel s := by
      obtain ⟨hv, pre, post, hs, -⟩ := hl
      exact ⟨pre, l.text, post, hs, l, hv, rfl⟩
    rw [parseLocal_of_first hl out]
    simp only [hhas, not_true_eq_false, and_false, iff_false]
    split_ifs <;> simp

theorem label_head {w : Str} (h : IsLabel w) : ∃ tl, w = '2' :: tl := by
  obtain ⟨l, -, rfl⟩ := h
  exact ⟨'5' :: l.yy ++ l.ws1 ++ ['/'] ++ l.ws2 ++ l.revision ++ l.dash ++ l.ws3 ++ l.code ++
    l.ws4 ++ l.fullDate, by simp [LabelParts.text, LabelParts.cycle]⟩

theorem exists_concat_of_ne_nil {w : Str} (h : w ≠ []) : ∃ u d, w = u ++ [d] := by
  rcases List.eq_nil_or_concat w with h' | ⟨u, d, h'⟩
  · exact absurd h' h
  · exact ⟨u, d, by rw [h', List.concat_eq_append]⟩

theorem label_last {w : Str} (h : IsLabel w) : ∃ u d, w = u ++ [d] ∧ isDigit d = true := by
  obtain ⟨l, hv, rfl⟩ := h
  obtain ⟨u, d, hd⟩ := exists_concat_of_ne_nil (ne_nil_of_length hv.date_len)
  refine ⟨l.cycle ++ l.ws1 ++ ['/'] ++ l.ws2 ++ l.revision ++ l.dash ++ l.ws3 ++ l.code ++ l.ws4 ++
    ('2' :: '0' :: u), d, by simp [LabelParts.text, LabelParts.fullDate, hd], ?_⟩
  exact hv.date_digits d (by rw [hd]; simp)

/-- White space around a string does not change where its leftmost label is. -/
theorem firstLabel_pad {s : Str} {l : LabelParts} (h : FirstLabel s l) {a b : Str}
    (ha : AllOf isSpace a) (hb : AllOf isSpace b) : FirstLabel (a ++ s ++ b) l := by
  obtain ⟨hv, pre, post, hs, hleft⟩ := h
  refine ⟨hv, a ++ pre, post ++ b, by rw [hs]; simp, ?_⟩
  intro p w q hpq hw
  rw [List.append_assoc, List.append_assoc] at hpq
  -- the label does not start inside `a`
  have h1 : ∃ a', p = a ++ a' ∧ s ++ b = a' ++ (w ++ q) := by
    rcases List.append_eq_append_iff.1 hpq with ⟨a', hp, hq⟩ | ⟨c, hc, hd⟩
    · exact ⟨a', hp, hq⟩
    · cases c with
      | nil => exact ⟨[], by simpa using hc.symm, by simpa using hd.symm⟩
      | cons x c =>
        obtain ⟨tl, rfl⟩ := label_head hw
        simp only [List.cons_append, List.cons.injEq] at hd
        have hx : isSpace x = true := ha x (by rw [hc]; simp)
        rw [← hd.1] at hx
        exact absurd hx (by decide)
  obtain ⟨a', rfl, h2⟩ := h1
  -- the label does not end inside `b`
  have h3 : ∃ q', s = a' ++ w ++ q' := by
    rw [← List.append_assoc] at h2
    rcases List.append_eq_append_iff.1 h2 with ⟨c, hc, hd⟩ | ⟨q', hq', -⟩
    · rcases List.eq_nil_or_concat c with rfl | ⟨c', y, rfl⟩
      · exact ⟨[], by simpa using hc.symm⟩
      · obtain ⟨u, d, rfl, hdig⟩ := label_last hw
        rw [List.concat_eq_append, ← List.append_assoc, ← List.append_assoc] at hc
        have hyd := (List.append_inj' hc rfl).2
        simp only [List.cons.injEq, and_true] at hyd
        have hy : isSpace y = true := hb y (by rw [hd]; simp)
        rw [← hyd, isDigit_not_space hdig] at hy
        exact absurd hy (by simp)
    · exact ⟨q', hq'⟩
  obtain ⟨q', hq'⟩ := h3
  have := hleft a' w q' hq' hw
  simp only [List.length_append]
  omega

theorem parseLocal_true_inv {s : Str} {out r : ParsedLocal}
    (h : ParseLocalFromInfoString s out = .ok (true, r)) :
    ∃ l, FirstLabel s l ∧ l.revisionValue ≤ INT_MAX ∧ l.patchValue ≤ INT_MAX ∧
      r = ⟨l.cycleValue, l.revisionValue, l.patchValue, s⟩ := by
  cases hr : regex_search rxLocal s with
  | none => simp [ParseLocalFromInfoString, hr] at h
  | some m =>
    obtain ⟨l, hl, -⟩ := regex_search_rxLocal_some hr
    rw [parseLocal_of_first hl out] at h
    by_cases hc : INT_MAX < l.revisionValue ∨ INT_MAX < l.patchValue
    · simp [hc] at h
    · rw [if_neg hc] at h
      simp only [Except.ok.injEq, Prod.mk.injEq, true_and] at h
      rw [not_or, not_lt, not_lt] at hc
      exact ⟨l, hl, hc.1, hc.2, h.symm⟩

theorem parseLocal_pad (s : Str) (out out' r : ParsedLocal) (a b : Str)
    (h : ParseLocalFromInfoString s out = .ok (true, r))
    (ha : AllOf isSpace a) (hb : AllOf isSpace b) :
    ParseLocalFromInfoString (a ++ s ++ b) out' =
      .ok (true, ⟨r.airac_cycle, r.airac_version, r.package_version, a ++ s ++ b⟩) := by
  obtain ⟨l, hl, h1, h2, rfl⟩ := parseLocal_true_inv h
  rw [parseLocal_of_first (firstLabel_pad hl ha hb) out', if_neg]
  rw [not_or, not_lt, not_lt]
  exact ⟨h1, h2⟩

theorem stopsAt_dropWhile (p : Char → Bool) (w : Str) : StopsAt p (w.dropWhile p) := by
  intro x xs h
  have := List.head_dropWhile_not p w (by rw [h]; simp)
  simpa [h] using this

theorem regGet_num_none {key body : Str} (h : ¬ HasNumField key body) :
    RegGet body (rxNumField key) = [] := by
  have : regex_search (rxNumField key) body = none := by
    rw [regex_search_eq_none_iff]
    intro pre w post hs hl
    exact h ⟨pre, w, post, hs, (lang_rxNumField key w).1 hl⟩
  simp [RegGet, this]

theorem regGet_num_first {key body ds : Str} (h : FirstNumField key body ds) :
    RegGet body (rxNumField key) = ds := by
  obtain ⟨pre, ws1, ws2, post, hs, h1, h2, hne, hd, hp, hleft⟩ := h
  have hleft' : NoEarlier (rxNumField key).lang (pre ++ (numFieldText key ws1 ws2 ds ++ post))
      pre := by
    rw [← List.append_assoc, ← hs]
    exact (noEarlier_congr (lang_rxNumField key) body pre).2 hleft
  have := regex_search_leftmost (rxNumField key) pre _ _ (head_rxNumField key h1 h2 hne hd hp)
    hleft'
  rw [← List.append_assoc, ← hs] at this
  simp [RegGet, this, MatchState.str, MatchState.sub, List.lookup]

theorem hasNumField_first {key body : Str} (h : HasNumField key body) :
    ∃ ds, FirstNumField key body ds := by
  cases hr : regex_search (rxNumField key) body with
  | none =>
    obtain ⟨pre, w, post, hs, hw⟩ := h
    exact absurd ((lang_rxNumField key w).2 hw) ((regex_search_eq_none_iff _ _).1 hr pre w post hs)
  | some m =>
    obtain ⟨pre, t, hs, ⟨tl, hrun⟩, hne⟩ := regex_search_some_inv _ body m hr
    obtain ⟨w, hw, hl⟩ := run_sound (rxNumField key) ⟨t, []⟩ m
      (by rw [hrun]; exact List.mem_cons_self _ _)
    obtain ⟨ws1, ws2, ds0, h1, h2, hne0, hd0, rfl⟩ := (lang_rxNumField key w).1 hl
    simp only at hw
    refine ⟨ds0 ++ m.rest.takeWhile isDigit, pre, ws1, ws2, m.rest.dropWhile isDigit, ?_, h1, h2,
      by simp [hne0], ?_, stopsAt_dropWhile _ _,
      (noEarlier_congr (lang_rxNumField key) body pre).1 hne⟩
    · rw [hs, hw]
      simp only [numFieldText, List.append_assoc, List.takeWhile_append_dropWhile]
    · intro c hc
      rcases List.mem_append.1 hc with hc | hc
      · exact hd0 c hc
      · exact (List.mem_takeWhile_imp hc)

theorem regGet_str_none {key body : Str} (h : ¬ HasStrField key body) :
    RegGet body (rxStrField key) = [] := by
  have : regex_search (rxStrField key) body = none := by
    rw [regex_search_eq_none_iff]
    intro pre w post hs hl
    exact h ⟨pre, w, post, hs, (lang_rxStrField key w).1 hl⟩
  simp [RegGet, this]

theorem regGet_str_first {key body val : Str} (h : FirstStrField key body val) :
    RegGet body (rxStrField key) = val := by
  obtain ⟨pre, ws1, ws2, post, hs, h1, h2, hv, hleft⟩ := h
  have hleft' : NoEarlier (rxStrField key).lang (pre ++ (strFieldText key ws1 ws2 val ++ post))
      pre := by
    rw [← List.append_assoc, ← hs]
    exact (noEarlier_congr (lang_rxStrField key) body pre).2 hleft
  have := regex_search_leftmost (rxStrField key) pre _ _ (head_rxStrField key h1 h2 hv post)
    hleft'
  rw [← List.append_assoc, ← hs] at this
  simp [RegGet, this, MatchState.str, MatchState.sub, List.lookup]

theorem hasStrField_first {key body : Str} (h : HasStrField key body) :
    ∃ val, FirstStrField key body val := by
  cases hr : regex_search (rxStrField key) body with
  | none =>
    obtain ⟨pre, w, post, hs, hw⟩ := h
    exact absurd ((lang_rxStrField key w).2 hw) ((regex_search_eq_none_iff _ _).1 hr pre w post hs)
  | some m =>
    obtain ⟨pre, t, hs, ⟨tl, hrun⟩, hne⟩ := regex_search_some_inv _ body m hr
    obtain ⟨w, hw, hl⟩ := run_sound (rxStrField key) ⟨t, []⟩ m
      (by rw [hrun]; exact List.mem_cons_self _ _)
    obtain ⟨ws1, ws2, val, h1, h2, hv, rfl⟩ := (lang_rxStrField key w).1 hl
    simp only at hw
    exact ⟨val, pre, ws1, ws2, m.rest, by rw [hs, hw, List.append_assoc], h1, h2, hv,
      (noEarlier_congr (lang_rxStrField key) body pre).1 hne⟩

/-- What `RegGet` returns for a numeric field: nothing when the body has no such
field, else the digits of the first one. -/
theorem regGet_num_cases (key body : Str) :
    (¬ HasNumField key body ∧ RegGet body (rxNumField key) = []) ∨
    (∃ ds, FirstNumField key body ds ∧ RegGet body (rxNumField key) = ds) := by
  by_cases h : HasNumField key body
  · obtain ⟨ds, hds⟩ := hasNumField_first h
    exact Or.inr ⟨ds, hds, regGet_num_first hds⟩
  · exact Or.inl ⟨h, regGet_num_none h⟩

theorem regGet_str_cases (key body : Str) :
    (¬ HasStrField key body ∧ RegGet body (rxStrField key) = []) ∨
    (∃ val, FirstStrField key body val ∧ RegGet body (rxStrField key) = val) := by
  by_cases h : HasStrField key body
  · obtain ⟨v, hv⟩ := hasStrField_first h
    exact Or.inr ⟨v, hv, regGet_str_first hv⟩
  · exact Or.inl ⟨h, regGet_str_none h⟩

theorem regGet_num_eq_nil_iff (key body : Str) :
    RegGet body (rxNumField key) = [] ↔ ¬ HasNumField key body := by
  rcases regGet_num_cases key body with ⟨h, e⟩ | ⟨ds, hds, e⟩
  · exact ⟨fun _ => h, fun _ => e⟩
  · obtain ⟨pre, ws1, ws2, post, hs, h1, h2, hne, hd, -, -⟩ := hds
    have hhas : HasNumField key body := ⟨pre, _, post, hs, ws1, ws2, ds, h1, h2, hne, hd, rfl⟩
    rw [e]
    exact ⟨fun h => absurd h hne, fun h => absurd hhas h⟩

theorem stoi_ok_digits {ds : Str} {v : Int} (hne : ds ≠ []) (hd : AllOf isDigit ds)
    (h : stoi ds = .ok v) : v = decimalValue ds ∧ (decimalValue ds : Int) ≤ INT_MAX := by
  rw [stoi_digits hne hd] at h
  by_cases hc : INT_MAX < (decimalValue ds : Int)
  · simp [hc] at h
  · simp only [hc, if_false, Except.ok.injEq] at h
    exact ⟨h.symm, not_lt.1 hc⟩

theorem firstNumField_digits {key body ds : Str} (h : FirstNumField key body ds) :
    ds ≠ [] ∧ AllOf isDigit ds := by
  obtain ⟨pre, ws1, ws2, post, -, -, -, hne, hd, -, -⟩ := h
  exact ⟨hne, hd⟩

/-- The three cases of `ParseRemoteJson`, in terms of what `RegGet` found. -/
theorem parseRemote_cases (json : Str) (out : RemoteLatest) :
    ((RegGet json (rxNumField "airac_cycle".toList) = [] ∨
        RegGet json (rxNumField "airac_version".toList) = []) ∧
      ParseRemoteJson json out = .ok (false, out)) ∨
    (RegGet json (rxNumField "airac_cycle".toList) ≠ [] ∧
      RegGet json (rxNumField "airac_version".toList) ≠ [] ∧
      ((∃ e, ParseRemoteJson json out = .error e) ∨
       (∃ c v p, stoi (RegGet json (rxNumField "airac_cycle".toList)) = .ok c ∧
          stoi (RegGet json (rxNumField "airac_version".toList)) = .ok v ∧
          ((RegGet json (rxNumField "package_version".toList) = [] ∧ p = 0) ∨
           (RegGet json (rxNumField "package_version".toList) ≠ [] ∧
            stoi (RegGet json (rxNumField "package_version".toList)) = .ok p)) ∧
          ParseRemoteJson json out = .ok (true,
            ⟨c, v, p, RegGet json (rxStrField "latest_package_name".toList),
              RegGet json (rxStrField "download_url".toList),
              RegGet json (rxStrField "notes".toList)⟩)))) := by
  by_cases h : RegGet json (rxNumField "airac_cycle".toList) = [] ∨
      RegGet json (rxNumField "airac_version".toList) = []
  · left
    exact ⟨h, by simp only [ParseRemoteJson, h, if_true]⟩
  · right
    have h' := h
    rw [not_or] at h'
    refine ⟨h'.1, h'.2, ?_⟩
    simp only [ParseRemoteJson, h, if_false]
    cases h1 : stoi (RegGet json (rxNumField "airac_cycle".toList)) with
    | error e => exact Or.inl ⟨e, rfl⟩
    | ok c =>
      cases h2 : stoi (RegGet json (rxNumField "airac_version".toList)) with
      | error e => exact Or.inl ⟨e, rfl⟩
      | ok v =>
        by_cases hp : RegGet json (rxNumField "package_version".toList) = []
        · exact Or.inr ⟨c, v, 0, rfl, rfl, Or.inl ⟨hp, rfl⟩, by simp only [hp, if_true]; rfl⟩
        · cases h3 : stoi (RegGet json (rxNumField "package_version".toList)) with
          | error e => exact Or.inl ⟨e, by simp only [hp, if_false, h3]; rfl⟩
          | ok p =>
            exact Or.inr ⟨c, v, p, rfl, rfl, Or.inr ⟨hp, rfl⟩, by
              simp only [hp, if_false, h3]; rfl⟩

theorem parseRemote_false_iff (json : Str) (out o : RemoteLatest) :
    ParseRemoteJson json out = .ok (false, o) ↔
      o = out ∧ (¬ HasNumField "airac_cycle".toList json ∨
        ¬ HasNumField "airac_version".toList json) := by
  rw [← regGet_num_eq_nil_iff, ← regGet_num_eq_nil_iff]
  rcases parseRemote_cases json out with ⟨h, e⟩ | ⟨h1, h2, ⟨e, he⟩ | ⟨c, v, p, -, -, -, he⟩⟩
  · rw [e]
    simp only [Except.ok.injEq, Prod.mk.injEq, true_and, h, and_true]
    exact eq_comm
  · rw [he]
    simp only [reduceCtorEq, false_iff]
    rintro ⟨-, h | h⟩
    · exact h1 h
    · exact h2 h
  · rw [he]
    simp only [Except.ok.injEq, Prod.mk.injEq, Bool.true_eq_false, false_and, false_iff]
    rintro ⟨-, h | h⟩
    · exact h1 h
    · exact h2 h

theorem wrapInt_of_range {x : Int} (h1 : INT_MIN ≤ x) (h2 : x ≤ INT_MAX) : wrapInt x = x := by
  simp only [INT_MIN, INT_MAX] at h1 h2
  simp only [wrapInt]
  omega

theorem intervalSec_ge (st : Plugin) : 60 ≤ intervalSec st := by
  simp only [intervalSec]
  split_ifs with h
  · exact le_refl _
  · exact not_lt.1 h

theorem sessionTick_offline (st : Plugin) :
    (sessionTick 0 st).1.m_OnlineSeconds = 0 ∧ (sessionTick 0 st).1.m_LastReminderBucket = 0 ∧
    (sessionTick 0 st).1.m_LastConnType = 0 ∧ (sessionTick 0 st).2 = [] := by
  simp [sessionTick]

theorem sessionTick_first (st : Plugin) (ct : Int) (hct : ct ≠ 0)
    (h : st.m_LastConnType = 0 ∨ st.m_LastConnType = -1) :
    (sessionTick ct st).1.m_OnlineSeconds = 1 ∧ (sessionTick ct st).1.m_LastReminderBucket = 0 ∧
    (sessionTick ct st).1.m_LastConnType = ct ∧
    (sessionTick ct st).1.m_ReminderMinutes = st.m_ReminderMinutes ∧
    (sessionTick ct st).2 = [] := by
  have hw : wrapInt (0 + 1) = 1 := by decide
  have hI : intervalSec { st with m_OnlineSeconds := 0, m_LastReminderBucket := 0 }
      = intervalSec st := rfl
  have hb : Int.tdiv 1 (intervalSec st) = 0 := by
    have := intervalSec_ge st
    exact Int.tdiv_eq_zero_of_lt (by decide) (by omega)
  simp only [sessionTick, h, hct, ne_eq, not_false_eq_true, and_self, if_true, hw, hI, hb,
    gt_iff_lt, lt_self_iff_false, if_false]

theorem sessionTick_next (I : Nat) (st : Plugin) (j : Nat) (ct : Int) (hct : ct ≠ 0)
    (hI : intervalSec st = (I : Int)) (hin : InSession I st j)
    (hj : ((j : Int) + 1) ≤ INT_MAX) :
    (sessionTick ct st).1.m_OnlineSeconds = ((j + 1 : Nat) : Int) ∧
    (sessionTick ct st).1.m_LastReminderBucket = (((j + 1) / I : Nat) : Int) ∧
    (sessionTick ct st).1.m_LastConnType = ct ∧
    (sessionTick ct st).1.m_ReminderMinutes = st.m_ReminderMinutes ∧
    (sessionTick ct st).2 = if I ∣ j + 1 then reminderEffects else [] := by
  obtain ⟨h0, h1, ho, hb⟩ := hin
  have hw : wrapInt (st.m_OnlineSeconds + 1) = ((j + 1 : Nat) : Int) := by
    rw [ho, wrapInt_of_range]
    · push_cast; ring
    · simp only [INT_MIN]; omega
    · exact hj
  have hbk : Int.tdiv ((j + 1 : Nat) : Int) (intervalSec st) = (((j + 1) / I : Nat) : Int) := by
    rw [hI, Int.ofNat_tdiv]
  have hsucc := Nat.succ_div j I
  by_cases hd : I ∣ j + 1
  · have hgt : ((((j + 1) / I : Nat) : Int)) > st.m_LastReminderBucket := by
      rw [hb]
      simp only [hd, if_true] at hsucc
      rw [show j + 1 = j.succ from rfl, hsucc]
      push_cast
      omega
    simp only [sessionTick, h0, h1, or_self, false_and, if_false, hct, ne_eq, not_false_eq_true,
      if_true, hw, hbk, hgt, hd]
    exact ⟨trivial, trivial, trivial, trivial, trivial⟩
  · have hgt : ¬ ((((j + 1) / I : Nat) : Int)) > st.m_LastReminderBucket := by
      rw [hb]
      simp only [hd, if_false] at hsucc
      rw [show j + 1 = j.succ from rfl, hsucc]
      simp
    simp only [sessionTick, h0, h1, or_self, false_and, if_false, hct, ne_eq, not_false_eq_true,
      if_true, hw, hbk, hgt, hd]
    refine ⟨trivial, ?_, trivial, trivial, trivial⟩
    rw [hb]
    simp only [hd, if_false] at hsucc
    rw [show j + 1 = j.succ from rfl, hsucc]
    simp

theorem intervalSec_congr {st st' : Plugin} (h : st'.m_ReminderMinutes = st.m_ReminderMinutes) :
    intervalSec st' = intervalSec st := by
  simp only [intervalSec, h]

theorem sessionTick_step (I : Nat) (hI60 : 60 ≤ I) (st : Plugin) (j : Nat) (ct : Int)
    (hct : ct ≠ 0 ∧ ct ≠ -1) (hI : intervalSec st = (I : Int)) (hr : Ready I st j)
    (hj : ((j : Int) + 1) ≤ INT_MAX) :
    InSession I (sessionTick ct st).1 (j + 1) ∧ intervalSec (sessionTick ct st).1 = (I : Int) ∧
    (sessionTick ct st).2 = if I ∣ j + 1 then reminderEffects else [] := by
  rcases hr with ⟨rfl, hstart⟩ | hin
  · obtain ⟨h1, h2, h3, h4, h5⟩ := sessionTick_first st ct hct.1 hstart
    have hnd : ¬ I ∣ 0 + 1 := by
      intro hd
      have := Nat.le_of_dvd (by decide) hd
      omega
    have hdiv : (0 + 1) / I = 0 := Nat.div_eq_of_lt (by omega)
    refine ⟨⟨by rw [h3]; exact hct.1, by rw [h3]; exact hct.2, by rw [h1]; rfl, ?_⟩, ?_, ?_⟩
    · rw [h2, hdiv]; rfl
    · rw [intervalSec_congr h4, hI]
    · rw [h5, if_neg hnd]
  · obtain ⟨h1, h2, h3, h4, h5⟩ := sessionTick_next I st j ct hct.1 hI hin hj
    exact ⟨⟨by rw [h3]; exact hct.1, by rw [h3]; exact hct.2, h1, h2⟩,
      by rw [intervalSec_congr h4, hI], h5⟩

theorem sessionRun_spec (I : Nat) (hI60 : 60 ≤ I) : ∀ (cts : List Int) (st : Plugin) (j : Nat),
    (∀ ct ∈ cts, ct ≠ 0 ∧ ct ≠ -1) → intervalSec st = (I : Int) → Ready I st j →
    ((j : Int) + cts.length) ≤ INT_MAX →
    Ready I (sessionRun st cts).1 (j + cts.length) ∧
    (sessionRun st cts).2 =
      (List.range cts.length).map (fun i => if I ∣ j + i + 1 then reminderEffects else [])
  | [], st, j, _, _, hr, _ => ⟨hr, rfl⟩
  | ct :: cts, st, j, hct, hI, hr, hj => by
    have hj1 : ((j : Int) + 1) ≤ INT_MAX := by
      simp only [List.length_cons, Nat.cast_add, Nat.cast_one] at hj
      omega
    obtain ⟨hin, hI', heff⟩ := sessionTick_step I hI60 st j ct (hct ct (List.mem_cons_self _ _))
      hI hr hj1
    obtain ⟨ih1, ih2⟩ := sessionRun_spec I hI60 cts (sessionTick ct st).1 (j + 1)
      (fun c hc => hct c (List.mem_cons_of_mem _ hc)) hI' (Or.inr hin) (by
        simp only [List.length_cons, Nat.cast_add, Nat.cast_one] at hj ⊢
        omega)
    refine ⟨?_, ?_⟩
    · simp only [sessionRun, List.length_cons]
      rw [show j + (cts.length + 1) = j + 1 + cts.length by omega]
      exact ih1
    · simp only [sessionRun, List.length_cons, List.range_succ_eq_map, List.map_cons,
        List.map_map, ih2, heff]
      congr 1
      apply List.map_congr_left
      intro i _
      simp only [Function.comp, Nat.succ_eq_add_one]
      rw [show j + 1 + i + 1 = j + (i + 1) + 1 by omega]

theorem reminderEffects_ne_nil : reminderEffects ≠ [] := by
  simp [reminderEffects]

/-- Among the first `n` positive integers, `n / I` are multiples of `I`. -/
theorem countP_multiples (I : Nat) : ∀ n : Nat,
    (List.range n).countP (fun i => decide (I ∣ i + 1)) = n / I
  | 0 => by simp
  | n + 1 => by
    rw [List.range_succ, List.countP_append, countP_multiples I n, Nat.succ_div]
    by_cases h : I ∣ n + 1 <;> simp [h]

theorem intervalSec_eq_max (st : Plugin)
    (hm : INT_MIN ≤ st.m_ReminderMinutes * 60 ∧ st.m_ReminderMinutes * 60 ≤ INT_MAX) :
    intervalSec st = max 60 (st.m_ReminderMinutes * 60) := by
  simp only [intervalSec, wrapInt_of_range hm.1 hm.2]
  split_ifs with h
  · exact (max_eq_left (le_of_lt h)).symm
  · exact (max_eq_right (not_lt.1 h)).symm

theorem sessionRun_take_online (I : Nat) (hI60 : 60 ≤ I) (st : Plugin) (cts : List Int)
    (hstart : st.m_LastConnType = 0 ∨ st.m_LastConnType = -1)
    (hct : ∀ ct ∈ cts, ct ≠ 0 ∧ ct ≠ -1) (hI : intervalSec st = (I : Int))
    (hn : (cts.length : Int) ≤ INT_MAX) (k : Nat) (hk1 : 1 ≤ k) (hk : k ≤ cts.length) :
    (sessionRun st (cts.take k)).1.m_OnlineSeconds = (k : Int) := by
  have hlen : (cts.take k).length = k := by simp [hk]
  have := (sessionRun_spec I hI60 (cts.take k) st 0
    (fun c hc => hct c (List.mem_of_mem_take hc)) hI (Or.inl ⟨rfl, hstart⟩) (by
      rw [hlen]
      have : (k : Int) ≤ cts.length := by exact_mod_cast hk
      simp only [Nat.cast_zero, zero_add]
      omega)).1
  rw [hlen, zero_add] at this
  rcases this with ⟨h0, -⟩ | ⟨-, -, h, -⟩
  · omega
  · exact h

theorem DoCheckBody_flag (verbose : Bool) (env : CheckEnv) (st : Plugin) :
    (DoCheckBody verbose env st).state.m_AutoChecksStopped =
      (st.m_AutoChecksStopped || !env.sectorName.isEmpty) := by
  unfold DoCheckBody
  by_cases h : env.sectorName.isEmpty = true
  · simp [h]
  · simp only [h, Bool.false_eq_true, if_false]
    split <;> (try split) <;> (try split) <;> (try split) <;> simp [h]

theorem DoCheckBody_no_call (verbose : Bool) (env : CheckEnv) (st : Plugin) :
    ∀ e ∈ (DoCheckBody verbose env st).trace, e.isCall = false := by
  unfold DoCheckBody
  by_cases h : env.sectorName.isEmpty = true
  · cases verbose <;> simp [h, msgNoSector, Effect.isCall]
  · simp only [h, Bool.false_eq_true, if_false]
    split <;> (try split) <;> (try split) <;> (try split) <;> cases verbose <;>
      simp [msgLocalUnparseable, msgFetchFailed, msgManifestMalformed, msgUpToDate,
        ShowUpdateAlert, Effect.isCall]

theorem DoCheck_flag (verbose : Bool) (env : CheckEnv) (st : Plugin) :
    (DoCheck verbose env st).state.m_AutoChecksStopped =
      (st.m_AutoChecksStopped || !env.sectorName.isEmpty) :=
  DoCheckBody_flag verbose env st

theorem DoCheck_trace_calls (verbose : Bool) (env : CheckEnv) (st : Plugin) :
    ∀ e ∈ (DoCheck verbose env st).trace, e.isCall = true → e = .DoCheckCalled verbose := by
  intro e he hc
  simp only [DoCheck, List.mem_cons] at he
  rcases he with rfl | he
  · rfl
  · rw [DoCheckBody_no_call verbose env st e he] at hc
    exact absurd hc (by simp)

theorem andThen_keeps {α β : Type} (r : Run α) (f : α → Plugin → Run β) (hr : KeepsStopped r)
    (hf : ∀ a, KeepsStopped (f a r.state)) : KeepsStopped (r.andThen f) := by
  cases h : r.result with
  | error e =>
    simp only [Run.andThen, h, KeepsStopped]
    exact hr
  | ok a =>
    simp only [Run.andThen, h, KeepsStopped, List.mem_append, not_or]
    exact ⟨(hf a).1, hr.2, (hf a).2⟩

theorem DoCheck_true_keeps (env : CheckEnv) (st : Plugin) (h : st.m_AutoChecksStopped = true) :
    KeepsStopped (DoCheck true env st) := by
  refine ⟨by rw [DoCheck_flag, h]; rfl, fun hmem => ?_⟩
  have := DoCheck_trace_calls true env st _ hmem rfl
  simp at this

theorem ShowWelcome_keeps (response : Option Str) (st : Plugin)
    (h : st.m_AutoChecksStopped = true) :
    KeepsStopped (⟨(ShowWelcomeIfAvailable response st).1,
      (ShowWelcomeIfAvailable response st).2, .ok ()⟩ : Run Unit) := by
  unfold ShowWelcomeIfAvailable KeepsStopped
  by_cases hw : st.m_WelcomeShown = true
  · simp [hw, h]
  · simp only [hw, Bool.false_eq_true, if_false]
    cases hh : HttpGet response with
    | mk b body =>
      cases b
      · simp [h]
      · simp only []
        split_ifs <;> simp [h]

theorem sessionTick_flag (ct : Int) (st : Plugin) :
    (sessionTick ct st).1.m_AutoChecksStopped = st.m_AutoChecksStopped ∧
    ∀ e ∈ (sessionTick ct st).2, e.isCall = false := by
  unfold sessionTick
  simp only []
  split_ifs <;> simp [reminderEffects, Effect.isCall]

theorem firstTickBlock_keeps (env : TimerEnv) (st : Plugin) (h : st.m_AutoChecksStopped = true) :
    KeepsStopped (firstTickBlock env st) := by
  unfold firstTickBlock
  split_ifs with hf
  · have hw := ShowWelcome_keeps env.welcome { st with firstTick := false } h
    have hd := andThen_keeps _ (fun _ s => DoCheck true env.firstCheck s) hw
      (fun _ => DoCheck_true_keeps _ _ hw.1)
    exact andThen_keeps _ _ hd (fun _ => ⟨hd.1, by simp⟩)
  · exact ⟨h, by simp⟩

theorem periodicBlock_stopped (Counter : Int) (env : TimerEnv) (st : Plugin)
    (h : st.m_AutoChecksStopped = true) : periodicBlock Counter env st = ⟨st, [], .ok ()⟩ := by
  simp [periodicBlock, h]

/-- Once the flag is set, a timer tick keeps it set and makes no periodic check. -/
theorem OnTimer_keeps (Counter : Int) (env : TimerEnv) (st : Plugin)
    (h : st.m_AutoChecksStopped = true) : KeepsStopped (OnTimer Counter env st) := by
  unfold OnTimer
  have h1 : KeepsStopped (Run.andThen (firstTickBlock env st)
      (fun _ s => periodicBlock Counter env s)) := by
    refine andThen_keeps _ _ (firstTickBlock_keeps env st h) (fun _ => ?_)
    rw [periodicBlock_stopped _ _ _ (firstTickBlock_keeps env st h).1]
    exact ⟨(firstTickBlock_keeps env st h).1, by simp⟩
  refine andThen_keeps _ _ h1 (fun _ => ?_)
  have hs := sessionTick_flag env.connectionType
    (Run.andThen (firstTickBlock env st) (fun _ s => periodicBlock Counter env s)).state
  refine ⟨by rw [hs.1]; exact h1.1, fun hmem => ?_⟩
  have := hs.2 _ hmem
  simp [Effect.isCall] at this

theorem statusRun_state (env : CheckEnv) (st : Plugin) :
    (statusRun env st).state = st ∧ (statusRun env st).trace = [] := by
  unfold statusRun
  simp only []
  split <;> (try split) <;> simp

theorem OnCompileCommand_keeps (sLine : Option Str) (env : CheckEnv) (st : Plugin)
    (h : st.m_AutoChecksStopped = true) : KeepsStopped (OnCompileCommand sLine env st) := by
  unfold OnCompileCommand
  simp only []
  split_ifs
  · exact andThen_keeps _ _ (DoCheck_true_keeps env st h)
      (fun _ => ⟨(DoCheck_true_keeps env st h).1, by simp⟩)
  · exact ⟨h, by simp⟩
  · exact ⟨h, by simp⟩
  · refine andThen_keeps _ _ ⟨by rw [(statusRun_state env st).1]; exact h,
      by rw [(statusRun_state env st).2]; simp⟩ (fun _ => ⟨?_, by simp⟩)
    rw [(statusRun_state env st).1]
    exact h
  · exact ⟨h, by simp⟩
  · exact ⟨h, by simp⟩
  · exact ⟨h, by simp⟩
  · exact ⟨h, by simp⟩

theorem newer_iff_lex (remote : RemoteLatest) (loc : ParsedLocal) :
    newer remote loc = true ↔
      toLex (loc.airac_cycle, toLex (loc.airac_version, loc.package_version)) <
      toLex (remote.airac_cycle, toLex (remote.airac_version, remote.package_version)) := by
  simp only [newer, Prod.Lex.lt_iff, Bool.or_eq_true, Bool.and_eq_true, decide_eq_true_eq]
  constructor
  · rintro ((h | ⟨h1, h2⟩) | ⟨⟨h1, h2⟩, h3⟩)
    · exact Or.inl h
    · exact Or.inr ⟨h1.symm, Or.inl h2⟩
    · exact Or.inr ⟨h1.symm, Or.inr ⟨h2.symm, h3⟩⟩
  · rintro (h | ⟨h1, h2 | ⟨h2, h3⟩⟩)
    · exact Or.inl (Or.inl h)
    · exact Or.inl (Or.inr ⟨h1.symm, h2⟩)
    · exact Or.inr ⟨⟨h1.symm, h2.symm⟩, h3⟩

theorem newerTriple_iff (a b : Int × Int × Int) :
    newerTriple a b ↔ toLex (a.1, toLex (a.2.1, a.2.2)) < toLex (b.1, toLex (b.2.1, b.2.2)) :=
  newer_iff_lex _ _

theorem parseLocal_nil (out : ParsedLocal) :
    ParseLocalFromInfoString [] out = .ok (false, out) := by
  have : regex_search rxLocal [] = none := by decide
  simp [ParseLocalFromInfoString, this]

theorem sector_ne_of_parsed {sfn : Str} {out loc : ParsedLocal}
    (h : ParseLocalFromInfoString sfn out = .ok (true, loc)) : sfn.isEmpty = false := by
  cases sfn with
  | nil => rw [parseLocal_nil] at h; simp at h
  | cons c cs => rfl

/-- What `DoCheck` does once both versions are parsed. -/
theorem DoCheck_compared (verbose : Bool) (env : CheckEnv) (st : Plugin) (loc : ParsedLocal)
    (body : Str) (remote : RemoteLatest)
    (hl : ParseLocalFromInfoString env.sectorName {} = .ok (true, loc))
    (hh : HttpGet env.manifest = (true, body))
    (hr : ParseRemoteJson body {} = .ok (true, remote)) :
    (DoCheck verbose env st).trace = .DoCheckCalled verbose ::
      (if newer remote loc then ShowUpdateAlert (updateText remote loc)
       else if verbose then [msgUpToDate loc] else []) ∧
    (DoCheck verbose env st).state =
      { st with m_AutoChecksStopped := true, m_LastDownloadUrl := remote.download_url } ∧
    (DoCheck verbose env st).result = .ok () := by
  have hs := sector_ne_of_parsed hl
  simp only [DoCheck, DoCheckBody, hs, Bool.false_eq_true, if_false, hl, hh, hr]
  by_cases hn : newer remote loc = true
  · simp [hn]
  · simp [hn]

/-- What `DoCheck` does when the manifest lacks a required field. -/
theorem DoCheck_malformed (verbose : Bool) (env : CheckEnv) (st : Plugin) (loc : ParsedLocal)
    (body : Str) (o : RemoteLatest)
    (hl : ParseLocalFromInfoString env.sectorName {} = .ok (true, loc))
    (hh : HttpGet env.manifest = (true, body))
    (hr : ParseRemoteJson body {} = .ok (false, o)) :
    (DoCheck verbose env st).trace =
      .DoCheckCalled verbose :: (if verbose then [msgManifestMalformed] else []) ∧
    (DoCheck verbose env st).state = { st with m_AutoChecksStopped := true } ∧
    (DoCheck verbose env st).result = .ok () := by
  have hs := sector_ne_of_parsed hl
  simp only [DoCheck, DoCheckBody, hs, Bool.false_eq_true, if_false, hl, hh, hr]
  exact ⟨trivial, trivial, trivial⟩

/-- C1. The `newer` flag of `DoCheck` is true exactly when the remote triple
(cycle, revision, patch) is strictly greater than the local one in the
lexicographic order; the relation is irreflexive, transitive and trichotomous (a
strict total order); once both versions are parsed the update alert is raised
exactly when the flag is true, and equal triples give "Up to date" on a manual
check and nothing on a periodic one. The three examples of the specification are
included. -/
theorem newer_strict_lex_order :
    (∀ (remote : RemoteLatest) (loc : ParsedLocal),
      newer remote loc = true ↔
        toLex (loc.airac_cycle, toLex (loc.airac_version, loc.package_version)) <
        toLex (remote.airac_cycle, toLex (remote.airac_version, remote.package_version))) ∧
    (∀ a, ¬ newerTriple a a) ∧
    (∀ a b c, newerTriple a b → newerTriple b c → newerTriple a c) ∧
    (∀ a b, (newerTriple a b ∧ a ≠ b ∧ ¬ newerTriple b a) ∨
            (¬ newerTriple a b ∧ a = b ∧ ¬ newerTriple b a) ∨
            (¬ newerTriple a b ∧ a ≠ b ∧ newerTriple b a)) ∧
    (∀ (verbose : Bool) (env : CheckEnv) (st : Plugin) (loc : ParsedLocal) (body : Str)
        (remote : RemoteLatest),
      ParseLocalFromInfoString env.sectorName {} = .ok (true, loc) →
      HttpGet env.manifest = (true, body) →
      ParseRemoteJson body {} = .ok (true, remote) →
      (DoCheck verbose env st).trace = .DoCheckCalled verbose ::
        (if newer remote loc then ShowUpdateAlert (updateText remote loc)
         else if verbose then [msgUpToDate loc] else []) ∧
      ((remote.airac_cycle, remote.airac_version, remote.package_version) =
          (loc.airac_cycle, loc.airac_version, loc.package_version) →
        (DoCheck verbose env st).trace =
          .DoCheckCalled verbose :: (if verbose then [msgUpToDate loc] else []))) ∧
    newerTriple (2510, 2, 0) (2510, 2, 1) ∧
    ¬ newerTriple (2510, 2, 0) (2510, 2, 0) ∧
    ¬ newerTriple (2510, 2, 0) (2509, 9, 9) := by
  have irr : ∀ a, ¬ newerTriple a a := fun a h => lt_irrefl _ ((newerTriple_iff a a).1 h)
  have tri : ∀ a b : Int × Int × Int, newerTriple a b ∨ a = b ∨ newerTriple b a := by
    intro a b
    rcases lt_trichotomy (toLex (a.1, toLex (a.2.1, a.2.2))) (toLex (b.1, toLex (b.2.1, b.2.2)))
      with h | h | h
    · exact Or.inl ((newerTriple_iff a b).2 h)
    · right; left
      have h' : (a.1, (a.2.1, a.2.2)) = (b.1, (b.2.1, b.2.2)) := h
      simp only [Prod.mk.injEq] at h'
      exact Prod.ext h'.1 (Prod.ext h'.2.1 h'.2.2)
    · exact Or.inr (Or.inr ((newerTriple_iff b a).2 h))
  have asym : ∀ a b, newerTriple a b → ¬ newerTriple b a := fun a b h h' =>
    lt_asymm ((newerTriple_iff a b).1 h) ((newerTriple_iff b a).1 h')
  refine ⟨newer_iff_lex, irr, ?_, ?_, ?_, by decide, by decide, by decide⟩
  · intro a b c h1 h2
    exact (newerTriple_iff a c).2 (lt_trans ((newerTriple_iff a b).1 h1) ((newerTriple_iff b c).1 h2))
  · intro a b
    rcases tri a b with h | h | h
    · exact Or.inl ⟨h, fun e => irr b (e ▸ h), asym a b h⟩
    · exact Or.inr (Or.inl ⟨fun h' => irr b (h ▸ h'), h, fun h' => irr b (h ▸ h')⟩)
    · exact Or.inr (Or.inr ⟨asym b a h, fun e => irr a (e ▸ h), h⟩)
  · intro verbose env st loc body remote hl hh hr
    obtain ⟨ht, -, -⟩ := DoCheck_compared verbose env st loc body remote hl hh hr
    refine ⟨ht, fun he => ?_⟩
    simp only [Prod.mk.injEq] at he
    have hn : ¬ newer remote loc = true := by
      rw [newer_iff_lex, he.1, he.2.1, he.2.2]
      exact lt_irrefl _
    rw [ht]
    simp [hn]

/-- Witness for C1: by transitivity, (2511, 0, 0) is newer than (2510, 2, 0). -/
theorem newer_strict_lex_order_witness : newerTriple (2510, 2, 0) (2511, 0, 0) :=
  newer_strict_lex_order.2.2.1 (2510, 2, 0) (2510, 2, 1) (2511, 0, 0) (by decide) (by decide)

/-- C2, as stated, fails: the label `2410/2 LBSR 20251013` has the shape the
claim describes (4-digit cycle, slash, revision, white space, 4-letter code,
white space, 8-digit date), yet `ParseLocalFromInfoString` returns false on it,
because the pattern only accepts a cycle that starts with `25`. -/
theorem spec_shape_rejected :
    HasSpecLabel "2410/2 LBSR 20251013".toList ∧
    ParseLocalFromInfoString "2410/2 LBSR 20251013".toList {} = .ok (false, {}) := by
  refine ⟨⟨[], ⟨"2410".toList, "2".toList, none, " ".toList, "LBSR".toList, " ".toList,
    "20251013".toList⟩, [], ⟨by decide, by decide, by decide, by decide, ?_, by decide, by decide,
    by decide, by decide, by decide, by decide, by decide, by decide⟩, by decide⟩, by decide⟩
  intro p hp
  cases hp

/-- C2, amended. `ParseLocalFromInfoString s` returns false, and then leaves the
record unchanged, exactly when `s` contains no label of the shape of the
program's pattern (`25` and two digits, optional white space, a slash, optional
white space, a revision of one or more digits, optionally a dash and a patch of
one or more digits, white space, four letters `A` to `Z`, white space, `20` and
six digits). When `s` contains one and the revision and the patch of the
leftmost one are at most `INT_MAX`, it returns true with the cycle, revision and
patch equal to the values of those tokens (patch 0 without the dash group) and
`package_name` equal to the whole of `s`. -/
theorem ParseLocalFromInfoString_spec (s : Str) (out : ParsedLocal) :
    (ParseLocalFromInfoString s out = .ok (false, out) ↔ ¬ HasLabel s) ∧
    (∀ o, ParseLocalFromInfoString s out = .ok (false, o) → o = out) ∧
    (HasLabel s → ∃ l, FirstLabel s l) ∧
    (∀ l, FirstLabel s l → l.revisionValue ≤ INT_MAX → l.patchValue ≤ INT_MAX →
      ParseLocalFromInfoString s out =
        .ok (true, ⟨l.cycleValue, l.revisionValue, l.patchValue, s⟩)) := by
  refine ⟨?_, ?_, hasLabel_first, ?_⟩
  · rw [parseLocal_false_iff]
    simp
  · intro o ho
    exact ((parseLocal_false_iff s out o).1 ho).1
  · intro l hl h1 h2
    rw [parseLocal_of_first hl out, if_neg]
    rw [not_or, not_lt, not_lt]
    exact ⟨h1, h2⟩

theorem sampleParts_valid : sampleParts.Valid := by
  refine ⟨by decide, by decide, by decide, by decide, by decide, by decide, ?_, by decide,
    by decide, by decide, by decide, by decide, by decide, by decide, by decide⟩
  intro p hp
  cases hp
  exact ⟨by decide, by decide⟩

theorem sampleParts_first : FirstLabel "2510/2-2 LBSR 20251013".toList sampleParts :=
  ⟨sampleParts_valid, [], [], by decide, fun _ _ _ _ _ => Nat.zero_le _⟩

/-- Witness for the amended C2: the label `2510/2-2 LBSR 20251013`
parses to (2510, 2, 2), and a string without a label is rejected. -/
theorem ParseLocalFromInfoString_spec_witness :
    ParseLocalFromInfoString "2510/2-2 LBSR 20251013".toList {} =
      .ok (true, ⟨2510, 2, 2, "2510/2-2 LBSR 20251013".toList⟩) ∧
    ¬ HasLabel "LBSR sector".toList :=
  ⟨((ParseLocalFromInfoString_spec "2510/2-2 LBSR 20251013".toList {}).2.2.2 sampleParts
      sampleParts_first (by decide) (by decide)).trans (by decide),
   (ParseLocalFromInfoString_spec "LBSR sector".toList {}).1.1 (by decide)⟩

/-- C8. White space around a label does not change what is extracted: when
`ParseLocalFromInfoString s` returns true with some cycle, revision and patch,
then for all strings `a` and `b` of white space only it also returns true on
`a ++ s ++ b`, with the same cycle, revision and patch. -/
theorem ParseLocalFromInfoString_pad (s : Str) (out out' r : ParsedLocal) (a b : Str)
    (h : ParseLocalFromInfoString s out = .ok (true, r))
    (ha : AllOf isSpace a) (hb : AllOf isSpace b) :
    ∃ r', ParseLocalFromInfoString (a ++ s ++ b) out' = .ok (true, r') ∧
      r'.airac_cycle = r.airac_cycle ∧ r'.airac_version = r.airac_version ∧
      r'.package_version = r.package_version :=
  ⟨_, parseLocal_pad s out out' r a b h ha hb, rfl, rfl, rfl⟩

/-- Witness for C8, on the two labels of the
specification: `... 2510/2-2 LBSR 20251013` gives (2510, 2, 2) and
`... 2510/2 LBSR 20251013` gives (2510, 2, 0), with and without blanks added. -/
theorem ParseLocalFromInfoString_pad_witness :
    ParseLocalFromInfoString "... 2510/2-2 LBSR 20251013".toList {} =
      .ok (true, ⟨2510, 2, 2, "... 2510/2-2 LBSR 20251013".toList⟩) ∧
    ParseLocalFromInfoString "... 2510/2 LBSR 20251013".toList {} =
      .ok (true, ⟨2510, 2, 0, "... 2510/2 LBSR 20251013".toList⟩) ∧
    (∃ r', ParseLocalFromInfoString
        ("  \t".toList ++ "... 2510/2-2 LBSR 20251013".toList ++ " \r\n".toList) {} =
          .ok (true, r') ∧
        r'.airac_cycle = 2510 ∧ r'.airac_version = 2 ∧ r'.package_version = 2) ∧
    (∃ r', ParseLocalFromInfoString
        ("  \t".toList ++ "... 2510/2 LBSR 20251013".toList ++ " \r\n".toList) {} =
          .ok (true, r') ∧
        r'.airac_cycle = 2510 ∧ r'.airac_version = 2 ∧ r'.package_version = 0) :=
  ⟨by decide, by decide,
   ParseLocalFromInfoString_pad "... 2510/2-2 LBSR 20251013".toList {} {}
     ⟨2510, 2, 2, "... 2510/2-2 LBSR 20251013".toList⟩ "  \t".toList " \r\n".toList
     (by decide) (by decide) (by decide),
   ParseLocalFromInfoString_pad "... 2510/2 LBSR 20251013".toList {} {}
     ⟨2510, 2, 0, "... 2510/2 LBSR 20251013".toList⟩ "  \t".toList " \r\n".toList
     (by decide) (by decide) (by decide)⟩

theorem parseRemote_true_fields {json : Str} {out r : RemoteLatest}
    (h : ParseRemoteJson json out = .ok (true, r)) :
    (∃ ds, FirstNumField "airac_cycle".toList json ds ∧ r.airac_cycle = decimalValue ds) ∧
    (∃ ds, FirstNumField "airac_version".toList json ds ∧ r.airac_version = decimalValue ds) ∧
    ((∃ ds, FirstNumField "package_version".toList json ds ∧
        r.package_version = decimalValue ds) ∨
      (¬ HasNumField "package_version".toList json ∧ r.package_version = 0)) ∧
    ((∃ v, FirstStrField "latest_package_name".toList json v ∧ r.latest_package_name = v) ∨
      (¬ HasStrField "latest_package_name".toList json ∧ r.latest_package_name = [])) ∧
    ((∃ v, FirstStrField "download_url".toList json v ∧ r.download_url = v) ∨
      (¬ HasStrField "download_url".toList json ∧ r.download_url = [])) ∧
    ((∃ v, FirstStrField "notes".toList json v ∧ r.notes = v) ∨
      (¬ HasStrField "notes".toList json ∧ r.notes = [])) := by
  have numOk : ∀ (key : Str) (v : Int), RegGet json (rxNumField key) ≠ [] →
      stoi (RegGet json (rxNumField key)) = .ok v →
      ∃ ds, FirstNumField key json ds ∧ v = decimalValue ds := by
    intro key v hne hs
    rcases regGet_num_cases key json with ⟨-, e⟩ | ⟨ds, hds, e⟩
    · exact absurd e hne
    · rw [e] at hs
      obtain ⟨hn, hd⟩ := firstNumField_digits hds
      exact ⟨ds, hds, (stoi_ok_digits hn hd hs).1⟩
  have strOk : ∀ (key : Str),
      (∃ v, FirstStrField key json v ∧ RegGet json (rxStrField key) = v) ∨
      (¬ HasStrField key json ∧ RegGet json (rxStrField key) = []) := by
    intro key
    rcases regGet_str_cases key json with ⟨hn, e⟩ | ⟨v, hv, e⟩
    · exact Or.inr ⟨hn, e⟩
    · exact Or.inl ⟨v, hv, e⟩
  rcases parseRemote_cases json out with ⟨-, e⟩ | ⟨h1, h2, ⟨e, he⟩ | ⟨c, v, p, hc, hv, hp, he⟩⟩
  · rw [e] at h
    simp at h
  · rw [he] at h
    simp at h
  · rw [he] at h
    simp only [Except.ok.injEq, Prod.mk.injEq, true_and] at h
    subst h
    refine ⟨numOk _ c h1 hc, numOk _ v h2 hv, ?_, strOk _, strOk _, strOk _⟩
    rcases hp with ⟨hp0, rfl⟩ | ⟨hpn, hps⟩
    · exact Or.inr ⟨(regGet_num_eq_nil_iff _ _).1 hp0, rfl⟩
    · exact Or.inl (numOk _ p hpn hps)

theorem hasNumField_of_first {key json ds : Str} (h : FirstNumField key json ds) :
    HasNumField key json := by
  obtain ⟨pre, ws1, ws2, post, hs, h1, h2, hne, hd, -, -⟩ := h
  exact ⟨pre, _, post, hs, ws1, ws2, ds, h1, h2, hne, hd, rfl⟩

/-- The result of `ParseRemoteJson` on a body whose first cycle and revision
fields, and first package field when it has one, hold values within `int`. -/
theorem parseRemote_of_fields {json : Str} (out : RemoteLatest) {dc dv : Str}
    (hc : FirstNumField "airac_cycle".toList json dc)
    (hv : FirstNumField "airac_version".toList json dv)
    (hcm : (decimalValue dc : Int) ≤ INT_MAX) (hvm : (decimalValue dv : Int) ≤ INT_MAX)
    (hp : ∀ dp, FirstNumField "package_version".toList json dp →
      (decimalValue dp : Int) ≤ INT_MAX) :
    ∃ r, ParseRemoteJson json out = .ok (true, r) ∧
      r.airac_cycle = decimalValue dc ∧ r.airac_version = decimalValue dv ∧
      (∀ dp, FirstNumField "package_version".toList json dp →
        r.package_version = decimalValue dp) ∧
      (¬ HasNumField "package_version".toList json → r.package_version = 0) ∧
      r.latest_package_name = RegGet json (rxStrField "latest_package_name".toList) ∧
      r.download_url = RegGet json (rxStrField "download_url".toList) ∧
      r.notes = RegGet json (rxStrField "notes".toList) := by
  have ec := regGet_num_first hc
  have ev := regGet_num_first hv
  obtain ⟨hcn, hcd⟩ := firstNumField_digits hc
  obtain ⟨hvn, hvd⟩ := firstNumField_digits hv
  have sc : stoi dc = .ok (decimalValue dc : Int) := by
    rw [stoi_digits hcn hcd, if_neg (not_lt.2 hcm)]
  have sv : stoi dv = .ok (decimalValue dv : Int) := by
    rw [stoi_digits hvn hvd, if_neg (not_lt.2 hvm)]
  rcases regGet_num_cases "package_version".toList json with ⟨hno, ep⟩ | ⟨dp, hdp, ep⟩
  · refine ⟨⟨decimalValue dc, decimalValue dv, 0,
      RegGet json (rxStrField "latest_package_name".toList),
      RegGet json (rxStrField "download_url".toList),
      RegGet json (rxStrField "notes".toList)⟩, ?_, rfl, rfl, ?_, fun _ => rfl, rfl, rfl, rfl⟩
    · simp only [ParseRemoteJson, ec, ev, ep, hcn, hvn, or_self, if_false, sc, sv, if_true]
      rfl
    · intro dp hdp
      exact absurd (hasNumField_of_first hdp) hno
  · obtain ⟨hpn, hpd⟩ := firstNumField_digits hdp
    have sp : stoi dp = .ok (decimalValue dp : Int) := by
      rw [stoi_digits hpn hpd, if_neg (not_lt.2 (hp dp hdp))]
    refine ⟨⟨decimalValue dc, decimalValue dv, decimalValue dp,
      RegGet json (rxStrField "latest_package_name".toList),
      RegGet json (rxStrField "download_url".toList),
      RegGet json (rxStrField "notes".toList)⟩, ?_, rfl, rfl, ?_, ?_, rfl, rfl, rfl⟩
    · simp only [ParseRemoteJson, ec, ev, ep, hcn, hvn, hpn, or_self, if_false, sc, sv, sp]
      rfl
    · intro dp' hdp'
      have e1 := regGet_num_first hdp'
      rw [ep] at e1
      simp only
      rw [e1]
    · intro hno
      exact absurd (hasNumField_of_first hdp) hno

/-- C3. `ParseRemoteJson` returns false exactly when the body has no numeric
`"airac_cycle"` field or no numeric `"airac_version"` field (a numeric field is
the quoted key, optional white space, a colon, optional white space and one or
more digits), and then leaves the record unchanged. When it returns true, the
cycle and the revision are the values of the first such fields, the package
version is the value of the first `"package_version"` field or 0 without one, and
the package name, the download URL and the notes are the quoted value of the
first field of that name or empty without one. It does return true, with these
values, on every body that has both required fields and whose first cycle,
revision and (if any) package values are at most `INT_MAX`; a body that has a
field has a first one. When it returns false inside `DoCheck`, the check ends
there: it reports "Manifest JSON missing fields." on a manual check and nothing
on a periodic one, whatever the local version is, and `m_LastDownloadUrl` keeps
its value. -/
theorem ParseRemoteJson_spec (json : Str) (out : RemoteLatest) :
    ((∃ o, ParseRemoteJson json out = .ok (false, o)) ↔
      (¬ HasNumField "airac_cycle".toList json ∨ ¬ HasNumField "airac_version".toList json)) ∧
    (∀ o, ParseRemoteJson json out = .ok (false, o) → o = out) ∧
    (∀ r, ParseRemoteJson json out = .ok (true, r) →
      (∃ ds, FirstNumField "airac_cycle".toList json ds ∧ r.airac_cycle = decimalValue ds) ∧
      (∃ ds, FirstNumField "airac_version".toList json ds ∧
        r.airac_version = decimalValue ds) ∧
      ((∃ ds, FirstNumField "package_version".toList json ds ∧
          r.package_version = decimalValue ds) ∨
        (¬ HasNumField "package_version".toList json ∧ r.package_version = 0)) ∧
      ((∃ v, FirstStrField "latest_package_name".toList json v ∧ r.latest_package_name = v) ∨
        (¬ HasStrField "latest_package_name".toList json ∧ r.latest_package_name = [])) ∧
      ((∃ v, FirstStrField "download_url".toList json v ∧ r.download_url = v) ∨
        (¬ HasStrField "download_url".toList json ∧ r.download_url = [])) ∧
      ((∃ v, FirstStrField "notes".toList json v ∧ r.notes = v) ∨
        (¬ HasStrField "notes".toList json ∧ r.notes = []))) ∧
    ((∀ key, HasNumField key json → ∃ ds, FirstNumField key json ds) ∧
      (∀ key, HasStrField key json → ∃ v, FirstStrField key json v)) ∧
    (∀ dc dv, FirstNumField "airac_cycle".toList json dc →
      FirstNumField "airac_version".toList json dv →
      (decimalValue dc : Int) ≤ INT_MAX → (decimalValue dv : Int) ≤ INT_MAX →
      (∀ dp, FirstNumField "package_version".toList json dp →
        (decimalValue dp : Int) ≤ INT_MAX) →
      ∃ r, ParseRemoteJson json out = .ok (true, r) ∧
        r.airac_cycle = decimalValue dc ∧ r.airac_version = decimalValue dv ∧
        (∀ dp, FirstNumField "package_version".toList json dp →
          r.package_version = decimalValue dp) ∧
        (¬ HasNumField "package_version".toList json → r.package_version = 0) ∧
        (∀ v, FirstStrField "latest_package_name".toList json v → r.latest_package_name = v) ∧
        (¬ HasStrField "latest_package_name".toList json → r.latest_package_name = []) ∧
        (∀ v, FirstStrField "download_url".toList json v → r.download_url = v) ∧
        (¬ HasStrField "download_url".toList json → r.download_url = []) ∧
        (∀ v, FirstStrField "notes".toList json v → r.notes = v) ∧
        (¬ HasStrField "notes".toList json → r.notes = [])) ∧
    (∀ (verbose : Bool) (env : CheckEnv) (st : Plugin) (loc : ParsedLocal) (o : RemoteLatest),
      ParseLocalFromInfoString env.sectorName {} = .ok (true, loc) →
      HttpGet env.manifest = (true, json) →
      ParseRemoteJson json {} = .ok (false, o) →
      (DoCheck verbose env st).trace =
        .DoCheckCalled verbose :: (if verbose then [msgManifestMalformed] else []) ∧
      (DoCheck verbose env st).state.m_LastDownloadUrl = st.m_LastDownloadUrl ∧
      (DoCheck verbose env st).result = .ok ()) := by
  refine ⟨?_, ?_, fun r hr => parseRemote_true_fields hr,
    ⟨fun key h => hasNumField_first h, fun key h => hasStrField_first h⟩, ?_, ?_⟩
  · constructor
    · rintro ⟨o, ho⟩
      exact ((parseRemote_false_iff json out o).1 ho).2
    · intro h
      exact ⟨out, (parseRemote_false_iff json out out).2 ⟨rfl, h⟩⟩
  · intro o ho
    exact ((parseRemote_false_iff json out o).1 ho).1
  · intro dc dv hc hv hcm hvm hp
    obtain ⟨r, hr, h1, h2, h3, h4, h5, h6, h7⟩ := parseRemote_of_fields out hc hv hcm hvm hp
    refine ⟨r, hr, h1, h2, h3, h4, ?_, ?_, ?_, ?_, ?_, ?_⟩
    · intro v hv'
      rw [h5, regGet_str_first hv']
    · intro hn
      rw [h5, regGet_str_none hn]
    · intro v hv'
      rw [h6, regGet_str_first hv']
    · intro hn
      rw [h6, regGet_str_none hn]
    · intro v hv'
      rw [h7, regGet_str_first hv']
    · intro hn
      rw [h7, regGet_str_none hn]
  · intro verbose env st loc o hl hh hr
    obtain ⟨h1, h2, h3⟩ := DoCheck_malformed verbose env st loc json o hl hh hr
    exact ⟨h1, by rw [h2], h3⟩

/-- Witness for C3: a manifest without the cycle field has no `"airac_cycle"`
field or no `"airac_version"` field, and a manual `DoCheck` on it reports the
malformed manifest and keeps the stored URL; on a manifest with cycle 2511,
revision 1, package version 3 and a download URL, `ParseRemoteJson` returns true
with exactly these values and empty notes. -/
theorem ParseRemoteJson_spec_witness :
    (¬ HasNumField "airac_cycle".toList manifestNoCycle ∨
      ¬ HasNumField "airac_version".toList manifestNoCycle) ∧
    ((DoCheck true malformedEnv Plugin.init).trace =
        [.DoCheckCalled true, msgManifestMalformed] ∧
      (DoCheck true malformedEnv Plugin.init).state.m_LastDownloadUrl = [] ∧
      (DoCheck true malformedEnv Plugin.init).result = .ok ()) ∧
    (∃ r, ParseRemoteJson manifestPatched {} = .ok (true, r) ∧
      r.airac_cycle = 2511 ∧ r.airac_version = 1 ∧ r.package_version = 3 ∧
      r.latest_package_name = [] ∧ r.download_url = "http://x".toList ∧ r.notes = []) := by
  refine ⟨(ParseRemoteJson_spec manifestNoCycle {}).1.1 ⟨{}, by decide⟩,
    (ParseRemoteJson_spec manifestNoCycle {}).2.2.2.2.2 true malformedEnv Plugin.init
      ⟨2510, 2, 0, "2510/2 LBSR 20251013".toList⟩ {} (by decide) (by decide) (by decide), ?_⟩
  obtain ⟨⟨dc, hc, ec⟩, ⟨dv, hv, ev⟩, hpv, hname, hurl, hnotes⟩ :=
    (ParseRemoteJson_spec manifestPatched {}).2.2.1
      ⟨2511, 1, 3, [], "http://x".toList, []⟩ (by decide)
  have hp : ∀ dp, FirstNumField "package_version".toList manifestPatched dp →
      (decimalValue dp : Int) ≤ INT_MAX := by
    intro dp hdp
    have e : RegGet manifestPatched (rxNumField "package_version".toList) = "3".toList := by
      decide
    rw [regGet_num_first hdp] at e
    rw [e]
    decide
  obtain ⟨r, hr, h1, h2, h3, -, h5, h6, h7, -, h9, h10⟩ :=
    (ParseRemoteJson_spec manifestPatched {}).2.2.2.2.1 dc dv hc hv
      (by rw [← ec]; decide) (by rw [← ev]; decide) hp
  refine ⟨r, hr, h1.trans ec.symm, h2.trans ev.symm, ?_, ?_, ?_, ?_⟩
  · rcases hpv with ⟨dp, hdp, ep⟩ | ⟨-, e0⟩
    · exact (h3 dp hdp).trans ep.symm
    · exact absurd e0 (by decide)
  · rcases hname with ⟨v, hv', e⟩ | ⟨hn, -⟩
    · exact (h5 v hv').trans e.symm
    · exact h6 hn
  · rcases hurl with ⟨v, hv', e⟩ | ⟨-, e0⟩
    · exact (h7 v hv').trans e.symm
    · exact absurd e0 (by decide)
  · rcases hnotes with ⟨v, hv', e⟩ | ⟨hn, -⟩
    · exact (h9 v hv').trans e.symm
    · exact h10 hn

theorem andThen_state {α β : Type} (r : Run α) (f : α → Plugin → Run β) (P : Plugin → Prop)
    (hr : P r.state) (hf : ∀ a, P (f a r.state).state) : P (r.andThen f).state := by
  cases h : r.result with
  | error e => simpa only [Run.andThen, h] using hr
  | ok a => simpa only [Run.andThen, h] using hf a

theorem andThen_ok {α β : Type} (r : Run α) (f : α → Plugin → Run β) (b : β)
    (h : (r.andThen f).result = .ok b) :
    ∃ a, r.result = .ok a ∧ (r.andThen f).state = (f a r.state).state ∧
      (r.andThen f).trace = r.trace ++ (f a r.state).trace := by
  cases hr : r.result with
  | error e => simp [Run.andThen, hr] at h
  | ok a => exact ⟨a, rfl, by simp only [Run.andThen, hr], by simp only [Run.andThen, hr]⟩

theorem andThen_trace_all {α β : Type} (r : Run α) (f : α → Plugin → Run β) (P : Effect → Prop)
    (hr : ∀ e ∈ r.trace, P e) (hf : ∀ a, ∀ e ∈ (f a r.state).trace, P e) :
    ∀ e ∈ (r.andThen f).trace, P e := by
  cases h : r.result with
  | error x => simpa only [Run.andThen, h] using hr
  | ok a =>
    simp only [Run.andThen, h, List.mem_append]
    rintro e (he | he)
    · exact hr e he
    · exact hf a e he

theorem handler_ne : "BGvACC".toList ≠ "Reminder".toList := by decide

theorem caption_ne : "BGvACC Updater".toList ≠ "BGvACC Reminder".toList := by decide

theorem DoCheck_session (verbose : Bool) (env : CheckEnv) (st : Plugin) :
    (DoCheck verbose env st).state.session = st.session ∧
    ∀ e ∈ (DoCheck verbose env st).trace, e.isReminder = false := by
  unfold DoCheck DoCheckBody
  by_cases h : env.sectorName.isEmpty = true
  · cases verbose <;>
      simp [h, Plugin.session, Effect.isReminder, reminderEffects, msgNoSector, handler_ne]
  · simp only [h, Bool.false_eq_true, if_false]
    split <;> (try split) <;> (try split) <;> (try split) <;> cases verbose <;>
      simp [Plugin.session, Effect.isReminder, reminderEffects, msgLocalUnparseable,
        msgFetchFailed, msgManifestMalformed, msgUpToDate, ShowUpdateAlert, handler_ne,
        caption_ne]

theorem ShowWelcome_session (response : Option Str) (st : Plugin) :
    (ShowWelcomeIfAvailable response st).1.session = st.session ∧
    ∀ e ∈ (ShowWelcomeIfAvailable response st).2, e.isReminder = false := by
  unfold ShowWelcomeIfAvailable
  by_cases hw : st.m_WelcomeShown = true
  · simp [hw]
  · simp only [hw, Bool.false_eq_true, if_false]
    cases hh : HttpGet response with
    | mk b body =>
      cases b
      · simp
      · simp only []
        split_ifs <;> simp [Plugin.session, Effect.isReminder, reminderEffects, handler_ne]

theorem firstTickBlock_session (env : TimerEnv) (st : Plugin) :
    (firstTickBlock env st).state.session = st.session ∧
    ∀ e ∈ (firstTickBlock env st).trace, e.isReminder = false := by
  unfold firstTickBlock
  split_ifs with hf
  · have hw := ShowWelcome_session env.welcome { st with firstTick := false }
    have hws : (ShowWelcomeIfAvailable env.welcome { st with firstTick := false }).1.session =
        st.session := hw.1
    have h1 : (Run.andThen (⟨(ShowWelcomeIfAvailable env.welcome { st with firstTick := false }).1,
        (ShowWelcomeIfAvailable env.welcome { st with firstTick := false }).2, .ok ()⟩ : Run Unit)
        (fun _ s => DoCheck true env.firstCheck s)).state.session = st.session :=
      andThen_state _ _ (fun s => s.session = st.session) hws
        (fun _ => by simp only []; rw [(DoCheck_session _ _ _).1]; exact hws)
    have h2 : ∀ e ∈ (Run.andThen
        (⟨(ShowWelcomeIfAvailable env.welcome { st with firstTick := false }).1,
        (ShowWelcomeIfAvailable env.welcome { st with firstTick := false }).2, .ok ()⟩ : Run Unit)
        (fun _ s => DoCheck true env.firstCheck s)).trace, e.isReminder = false :=
      andThen_trace_all _ _ (fun e => e.isReminder = false) hw.2
        (fun _ => (DoCheck_session _ _ _).2)
    refine ⟨andThen_state _ _ (fun s => s.session = st.session) h1 (fun _ => h1), ?_⟩
    refine andThen_trace_all _ _ (fun e => e.isReminder = false) h2 (fun _ => ?_)
    simp [Effect.isReminder, reminderEffects, handler_ne]
  · exact ⟨rfl, by simp⟩

theorem periodicBlock_session (Counter : Int) (env : TimerEnv) (st : Plugin) :
    (periodicBlock Counter env st).state.session = st.session ∧
    ∀ e ∈ (periodicBlock Counter env st).trace, e.isReminder = false := by
  unfold periodicBlock
  split_ifs
  · refine ⟨andThen_state _ _ (fun s => s.session = st.session) (DoCheck_session _ _ _).1
      (fun _ => ?_), andThen_trace_all _ _ (fun e => e.isReminder = false)
      (DoCheck_session _ _ _).2 (fun _ => by simp)⟩
    exact (DoCheck_session false env.periodicCheck st).1
  · exact ⟨rfl, by simp⟩
  · exact ⟨rfl, by simp⟩

theorem sessionTick_congr (ct : Int) {s st : Plugin} (h : s.session = st.session) :
    (sessionTick ct s).1.session = (sessionTick ct st).1.session ∧
    (sessionTick ct s).2 = (sessionTick ct st).2 := by
  cases s
  cases st
  simp only [Plugin.session, Prod.mk.injEq] at h
  obtain ⟨rfl, rfl, rfl, rfl⟩ := h
  simp only [sessionTick, intervalSec]
  split_ifs <;> simp [Plugin.session]

theorem sessionTick_reminders (ct : Int) (st : Plugin) :
    (sessionTick ct st).2.filter Effect.isReminder = (sessionTick ct st).2 := by
  rw [List.filter_eq_self]
  intro e he
  have : (sessionTick ct st).2 = reminderEffects ∨ (sessionTick ct st).2 = [] := by
    simp only [sessionTick]
    split_ifs <;> simp
  rcases this with h | h
  · rw [h] at he
    simp [Effect.isReminder, he]
  · rw [h] at he
    simp at he

/-- A call of `OnTimer` that returns does to the session members, and raises as
reminders, what its session part does on the object the call started from. -/
theorem OnTimer_session (Counter : Int) (env : TimerEnv) (st : Plugin)
    (h : (OnTimer Counter env st).result = .ok ()) :
    (OnTimer Counter env st).state.session = (sessionTick env.connectionType st).1.session ∧
    (OnTimer Counter env st).trace.filter Effect.isReminder =
      (sessionTick env.connectionType st).2 := by
  unfold OnTimer at h ⊢
  obtain ⟨a, -, hs, ht⟩ := andThen_ok _ _ _ h
  have hview : (Run.andThen (firstTickBlock env st)
      (fun _ s => periodicBlock Counter env s)).state.session = st.session :=
    andThen_state _ _ (fun s => s.session = st.session) (firstTickBlock_session env st).1
      (fun _ => by
        simp only []
        rw [(periodicBlock_session _ _ _).1]
        exact (firstTickBlock_session env st).1)
  have htr : ∀ e ∈ (Run.andThen (firstTickBlock env st)
      (fun _ s => periodicBlock Counter env s)).trace, e.isReminder = false :=
    andThen_trace_all _ _ (fun e => e.isReminder = false) (firstTickBlock_session env st).2
      (fun _ => (periodicBlock_session _ _ _).2)
  obtain ⟨c1, c2⟩ := sessionTick_congr env.connectionType hview
  rw [hs, ht]
  refine ⟨c1, ?_⟩
  rw [List.filter_append, List.filter_eq_nil_iff.2 (fun e he => by simp [htr e he]),
    List.nil_append]
  simp only []
  rw [sessionTick_reminders, c2]

theorem sessionRun_congr : ∀ (cts : List Int) {s st : Plugin}, s.session = st.session →
    (sessionRun s cts).1.session = (sessionRun st cts).1.session ∧
    (sessionRun s cts).2 = (sessionRun st cts).2
  | [], _, _, h => ⟨h, rfl⟩
  | ct :: cts, s, st, h => by
    obtain ⟨h1, h2⟩ := sessionTick_congr ct h
    obtain ⟨h3, h4⟩ := sessionRun_congr cts h1
    exact ⟨h3, by simp only [sessionRun, h2, h4]⟩

/-- A run of `OnTimer` calls that all return does to the session members, and
raises as reminders, what the run of their session parts does. -/
theorem timerRun_eq_sessionRun : ∀ (ticks : List (Int × TimerEnv)) (st : Plugin),
    AllReturn st ticks →
    (timerRun st ticks).1.session =
      (sessionRun st (ticks.map fun t => t.2.connectionType)).1.session ∧
    (timerRun st ticks).2 = (sessionRun st (ticks.map fun t => t.2.connectionType)).2
  | [], _, _ => ⟨rfl, rfl⟩
  | tick :: rest, st, h => by
    obtain ⟨hret, hrest⟩ := h
    obtain ⟨h1, h2⟩ := OnTimer_session tick.1 tick.2 st hret
    obtain ⟨h3, h4⟩ := timerRun_eq_sessionRun rest _ hrest
    obtain ⟨h5, h6⟩ := sessionRun_congr (rest.map fun t => t.2.connectionType) h1
    refine ⟨?_, ?_⟩
    · simp only [timerRun, List.map_cons, sessionRun]
      rw [h3, h5]
    · simp only [timerRun, List.map_cons, sessionRun]
      rw [h2, h4, h6]

/-- C4. Let `I = max 60 (m_ReminderMinutes * 60)`. Take a run of consecutive
connected ticks (`GetConnectionType` is not 0) that starts from the initial state
or right after an offline tick (`m_LastConnType` is -1 or 0). Then the `k`-th tick
of the run leaves `m_OnlineSeconds = k`; it raises the break reminder exactly
when `k` is a multiple of `I`, and nothing otherwise; the run raises `n / I`
reminders in all; and two ticks that raise one have different interval indices
`k / I`. A run of `OnTimer` calls that all return, with these connection types,
raises the same reminders and leaves the same `m_OnlineSeconds`.

The connection types are those the host returns: -1 is the value the object
itself keeps in `m_LastConnType` for "no tick yet", never a connection type.
`m_ReminderMinutes * 60` and the number of ticks are within the range of `int`
(`m_ReminderMinutes` is 120 in every object the constructor makes). -/
theorem reminder_schedule (st : Plugin) (cts : List Int)
    (hstart : st.m_LastConnType = 0 ∨ st.m_LastConnType = -1)
    (hct : ∀ ct ∈ cts, ct ≠ 0 ∧ ct ≠ -1)
    (hm : INT_MIN ≤ st.m_ReminderMinutes * 60 ∧ st.m_ReminderMinutes * 60 ≤ INT_MAX)
    (hn : (cts.length : Int) ≤ INT_MAX) :
    (∀ k, 1 ≤ k → k ≤ cts.length →
      (sessionRun st (cts.take k)).1.m_OnlineSeconds = (k : Int)) ∧
    (∀ k, 1 ≤ k → k ≤ cts.length →
      (sessionRun st cts).2[k - 1]? =
        some (if max 60 (st.m_ReminderMinutes * 60) ∣ (k : Int) then reminderEffects else [])) ∧
    (((sessionRun st cts).2.countP (fun e => !e.isEmpty) : Nat) : Int) =
      (cts.length : Int) / max 60 (st.m_ReminderMinutes * 60) ∧
    (∀ j k, 1 ≤ j → j ≤ cts.length → 1 ≤ k → k ≤ cts.length →
      (sessionRun st cts).2[j - 1]? = some reminderEffects →
      (sessionRun st cts).2[k - 1]? = some reminderEffects →
      (j : Int) / max 60 (st.m_ReminderMinutes * 60) =
        (k : Int) / max 60 (st.m_ReminderMinutes * 60) → j = k) ∧
    (∀ ticks : List (Int × TimerEnv), (ticks.map fun t => t.2.connectionType) = cts →
      AllReturn st ticks →
      (timerRun st ticks).2 = (sessionRun st cts).2 ∧
      (timerRun st ticks).1.m_OnlineSeconds = (sessionRun st cts).1.m_OnlineSeconds) := by
  have hI0 := intervalSec_eq_max st hm
  have h60 : (60 : Int) ≤ max 60 (st.m_ReminderMinutes * 60) := le_max_left _ _
  obtain ⟨I, hIe⟩ : ∃ I : Nat, max 60 (st.m_ReminderMinutes * 60) = (I : Int) :=
    ⟨(max 60 (st.m_ReminderMinutes * 60)).toNat, (Int.toNat_of_nonneg (by omega)).symm⟩
  rw [hIe] at hI0 h60 ⊢
  have hI60 : 60 ≤ I := by exact_mod_cast h60
  have hrun := (sessionRun_spec I hI60 cts st 0 hct hI0 (Or.inl ⟨rfl, hstart⟩) (by
    simp only [Nat.cast_zero, zero_add]
    exact hn)).2
  simp only [zero_add] at hrun
  have hget : ∀ k, 1 ≤ k → k ≤ cts.length → (sessionRun st cts).2[k - 1]? =
      some (if (I : Int) ∣ (k : Int) then reminderEffects else []) := by
    intro k hk1 hk
    rw [hrun, List.getElem?_map, List.getElem?_range (by omega)]
    simp only [Option.map_some', Int.natCast_dvd_natCast]
    rw [show k - 1 + 1 = k by omega]
  refine ⟨fun k hk1 hk => sessionRun_take_online I hI60 st cts hstart hct hI0 hn k hk1 hk,
    hget, ?_, ?_, ?_⟩
  · rw [hrun, List.countP_map]
    have : ((fun e : List Effect => !e.isEmpty) ∘ fun i => if I ∣ i + 1 then reminderEffects else [])
        = fun i => decide (I ∣ i + 1) := by
      funext i
      by_cases h : I ∣ i + 1 <;> simp [h, reminderEffects]
    rw [this, countP_multiples]
    exact Int.natCast_div _ _
  · intro j k hj1 hj hk1 hk hfj hfk he
    rw [hget j hj1 hj] at hfj
    rw [hget k hk1 hk] at hfk
    have hdj : (I : Int) ∣ (j : Int) := by
      by_contra h
      simp only [h, if_false, Option.some.injEq] at hfj
      exact reminderEffects_ne_nil hfj.symm
    have hdk : (I : Int) ∣ (k : Int) := by
      by_contra h
      simp only [h, if_false, Option.some.injEq] at hfk
      exact reminderEffects_ne_nil hfk.symm
    have e1 := Int.ediv_mul_cancel hdj
    have e2 := Int.ediv_mul_cancel hdk
    rw [he, e2] at e1
    exact_mod_cast e1.symm
  · intro ticks hticks hret
    obtain ⟨h1, h2⟩ := timerRun_eq_sessionRun ticks st hret
    rw [hticks] at h1 h2
    exact ⟨h2, congrArg (fun v => v.2.1) h1⟩

/-- Witness for C4 with `I = 60`: in a run of 120 connected ticks
the 60th tick raises a reminder, the ticks 61 to 119 raise none, the 120th
raises one more, which makes two in all. -/
theorem reminder_schedule_witness :
    (sessionRun oneMinuteStart (List.replicate 120 1)).2[59]? = some reminderEffects ∧
    (∀ k, 61 ≤ k → k ≤ 119 →
      (sessionRun oneMinuteStart (List.replicate 120 1)).2[k - 1]? = some []) ∧
    (sessionRun oneMinuteStart (List.replicate 120 1)).2[119]? = some reminderEffects ∧
    (sessionRun oneMinuteStart (List.replicate 120 1)).2.countP (fun e => !e.isEmpty) = 2 ∧
    (timerRun Plugin.init [(1, idleTick 1), (2, idleTick 1)]).2 = [[], []] := by
  have h := reminder_schedule oneMinuteStart (List.replicate 120 1) (Or.inr rfl)
    (fun ct hct => by rw [List.eq_of_mem_replicate hct]; decide) (by decide)
    (by rw [List.length_replicate]; decide)
  have hI : max 60 (oneMinuteStart.m_ReminderMinutes * 60) = 60 := by decide
  rw [hI] at h
  refine ⟨(h.2.1 60 (by decide) (by decide)).trans (by decide), ?_,
    (h.2.1 120 (by decide) (by decide)).trans (by decide), ?_,
    ((reminder_schedule Plugin.init [1, 1] (Or.inr rfl) (by decide) (by decide) (by decide)).2.2.2.2
      [(1, idleTick 1), (2, idleTick 1)] rfl ⟨by decide, by decide, trivial⟩).1.trans
      (by decide)⟩
  · intro k h1 h2
    rw [h.2.1 k (by omega) (by simp; omega), if_neg]
    omega
  · have := h.2.2.1
    simp only [List.length_replicate] at this
    exact_mod_cast this

/-- C5. The session counters restart on disconnect and on reconnect. After the
session part of a tick with connection type 0, `m_OnlineSeconds` and
`m_LastReminderBucket` are 0, whatever they were. On a connected tick that comes
after an offline tick or after start-up (`m_LastConnType` is 0 or -1), both are
reset before counting, so the tick ends with `m_OnlineSeconds = 1`,
`m_LastReminderBucket = 0` and no reminder, whatever the earlier session had
reached. The same holds of every `OnTimer` call that returns. -/
theorem session_counters_reset :
    (∀ st : Plugin, (sessionTick 0 st).1.m_OnlineSeconds = 0 ∧
      (sessionTick 0 st).1.m_LastReminderBucket = 0 ∧ (sessionTick 0 st).2 = []) ∧
    (∀ (st : Plugin) (ct : Int), ct ≠ 0 → (st.m_LastConnType = 0 ∨ st.m_LastConnType = -1) →
      (sessionTick ct st).1.m_OnlineSeconds = 1 ∧
      (sessionTick ct st).1.m_LastReminderBucket = 0 ∧ (sessionTick ct st).2 = []) ∧
    (∀ (st : Plugin) (ct : Int), ct ≠ 0 →
      (sessionTick ct (sessionTick 0 st).1).1.m_OnlineSeconds = 1 ∧
      (sessionTick ct (sessionTick 0 st).1).1.m_LastReminderBucket = 0 ∧
      (sessionTick ct (sessionTick 0 st).1).2 = []) ∧
    (∀ ct : Int, ct ≠ 0 →
      (sessionTick ct Plugin.init).1.m_OnlineSeconds = 1 ∧
      (sessionTick ct Plugin.init).1.m_LastReminderBucket = 0 ∧
      (sessionTick ct Plugin.init).2 = []) ∧
    (∀ (Counter : Int) (env : TimerEnv) (st : Plugin),
      (OnTimer Counter env st).result = .ok () → env.connectionType = 0 →
      (OnTimer Counter env st).state.m_OnlineSeconds = 0 ∧
      (OnTimer Counter env st).state.m_LastReminderBucket = 0) ∧
    (∀ (Counter : Int) (env : TimerEnv) (st : Plugin),
      (OnTimer Counter env st).result = .ok () → env.connectionType ≠ 0 →
      (st.m_LastConnType = 0 ∨ st.m_LastConnType = -1) →
      (OnTimer Counter env st).state.m_OnlineSeconds = 1 ∧
      (OnTimer Counter env st).state.m_LastReminderBucket = 0 ∧
      (OnTimer Counter env st).trace.filter Effect.isReminder = []) := by
  have first : ∀ (st : Plugin) (ct : Int), ct ≠ 0 →
      (st.m_LastConnType = 0 ∨ st.m_LastConnType = -1) →
      (sessionTick ct st).1.m_OnlineSeconds = 1 ∧
      (sessionTick ct st).1.m_LastReminderBucket = 0 ∧ (sessionTick ct st).2 = [] := by
    intro st ct hct h
    obtain ⟨h1, h2, -, -, h5⟩ := sessionTick_first st ct hct h
    exact ⟨h1, h2, h5⟩
  refine ⟨fun st => ?_, first, fun st ct hct => ?_, fun ct hct => first _ ct hct (Or.inr rfl),
    ?_, ?_⟩
  · obtain ⟨h1, h2, -, h4⟩ := sessionTick_offline st
    exact ⟨h1, h2, h4⟩
  · exact first _ ct hct (Or.inl (sessionTick_offline st).2.2.1)
  · intro Counter env st hok hct
    obtain ⟨h1, -⟩ := OnTimer_session Counter env st hok
    rw [hct] at h1
    have ho := congrArg (fun v => v.2.1) h1
    have hb := congrArg (fun v => v.2.2.2) h1
    simp only [Plugin.session] at ho hb
    exact ⟨ho.trans (sessionTick_offline st).1, hb.trans (sessionTick_offline st).2.1⟩
  · intro Counter env st hok hct hstart
    obtain ⟨h1, h2⟩ := OnTimer_session Counter env st hok
    obtain ⟨f1, f2, f3⟩ := first st env.connectionType hct hstart
    have ho := congrArg (fun v => v.2.1) h1
    have hb := congrArg (fun v => v.2.2.2) h1
    simp only [Plugin.session] at ho hb
    exact ⟨ho.trans f1, hb.trans f2, h2.trans f3⟩

/-- Witness for C5: a session that has counted 7300 seconds
and one reminder is back at 0 after an offline tick, and the connected tick after
it ends at one second with no reminder; so does the first `OnTimer` call of all,
made while connected. -/
theorem session_counters_reset_witness :
    ((sessionTick 0 longSession).1.m_OnlineSeconds = 0 ∧
     (sessionTick 0 longSession).1.m_LastReminderBucket = 0 ∧
     (sessionTick 0 longSession).2 = []) ∧
    ((sessionTick 1 (sessionTick 0 longSession).1).1.m_OnlineSeconds = 1 ∧
     (sessionTick 1 (sessionTick 0 longSession).1).1.m_LastReminderBucket = 0 ∧
     (sessionTick 1 (sessionTick 0 longSession).1).2 = []) ∧
    ((OnTimer 1 (idleTick 1) Plugin.init).state.m_OnlineSeconds = 1 ∧
     (OnTimer 1 (idleTick 1) Plugin.init).state.m_LastReminderBucket = 0 ∧
     (OnTimer 1 (idleTick 1) Plugin.init).trace.filter Effect.isReminder = []) :=
  ⟨session_counters_reset.1 longSession,
   session_counters_reset.2.2.1 longSession 1 (by decide),
   session_counters_reset.2.2.2.2.2 1 (idleTick 1) Plugin.init (by decide)
     (by decide) (Or.inr rfl)⟩

theorem Callback_run_keeps (cb : Callback) (st : Plugin) (h : st.m_AutoChecksStopped = true) :
    (cb.run st).1.m_AutoChecksStopped = true ∧ Effect.DoCheckCalled false ∉ (cb.run st).2 := by
  cases cb with
  | timer Counter env => exact OnTimer_keeps Counter env st h
  | command sLine env => exact OnCompileCommand_keeps sLine env st h

theorem runCallbacks_keeps : ∀ (cbs : List Callback) (st : Plugin),
    st.m_AutoChecksStopped = true →
    (runCallbacks st cbs).1.m_AutoChecksStopped = true ∧
    Effect.DoCheckCalled false ∉ (runCallbacks st cbs).2
  | [], _, h => ⟨h, by simp [runCallbacks]⟩
  | cb :: cbs, st, h => by
    obtain ⟨h1, h2⟩ := Callback_run_keeps cb st h
    obtain ⟨h3, h4⟩ := runCallbacks_keeps cbs (cb.run st).1 h1
    refine ⟨h3, ?_⟩
    simp only [runCallbacks, List.mem_append, not_or]
    exact ⟨h2, h4⟩

theorem andThen_trace_mem {α β : Type} (r : Run α) (f : α → Plugin → Run β) (e : Effect)
    (h : e ∈ r.trace) : e ∈ (r.andThen f).trace := by
  cases hr : r.result with
  | error x => simpa only [Run.andThen, hr] using h
  | ok a =>
    simp only [Run.andThen, hr, List.mem_append]
    exact Or.inl h

theorem manual_command_runs (env : CheckEnv) (st : Plugin) :
    (OnCompileCommand (some ".bgvacc-update-check".toList) env st).trace =
      (DoCheck true env st).trace ∧
    (OnCompileCommand (some ".bgvacc-update-check".toList) env st).state =
      (DoCheck true env st).state := by
  cases h : (DoCheck true env st).result <;>
    simp [OnCompileCommand, Run.andThen, h]

theorem periodic_check_runs (Counter : Int) (env : TimerEnv) (st : Plugin)
    (hf : st.firstTick = false) (hs : st.m_AutoChecksStopped = false)
    (hc : wrapInt (Counter - st.m_LastCheckCounter) ≥ st.m_IntervalSec) :
    Effect.DoCheckCalled false ∈ (OnTimer Counter env st).trace := by
  have h1 : firstTickBlock env st = ⟨st, [], .ok ()⟩ := by simp [firstTickBlock, hf]
  have h2 : Effect.DoCheckCalled false ∈ (periodicBlock Counter env st).trace := by
    simp only [periodicBlock, hs, Bool.not_false, if_true, hc]
    exact andThen_trace_mem _ _ _ (by simp [DoCheck])
  simp only [OnTimer, h1]
  refine andThen_trace_mem _ _ _ ?_
  simpa [Run.andThen] using h2

/-- C9. A `DoCheck` call that parses a local version leaves
`m_AutoChecksStopped` true. From a state with the flag true, every sequence of
`OnTimer` and `OnCompileCommand` calls keeps it true and never enters the
periodic `DoCheck(false)`. Only the periodic check is gated: the command
`.bgvacc-update-check` enters `DoCheck(true)` in every state, and while the flag
is false a tick whose interval has elapsed does enter `DoCheck(false)`. -/
theorem auto_checks_stop_for_good :
    (∀ (verbose : Bool) (env : CheckEnv) (st : Plugin) (loc : ParsedLocal),
      ParseLocalFromInfoString env.sectorName {} = .ok (true, loc) →
      (DoCheck verbose env st).state.m_AutoChecksStopped = true) ∧
    (∀ (st : Plugin) (cbs : List Callback), st.m_AutoChecksStopped = true →
      (runCallbacks st cbs).1.m_AutoChecksStopped = true ∧
      Effect.DoCheckCalled false ∉ (runCallbacks st cbs).2) ∧
    (∀ (env : CheckEnv) (st : Plugin),
      (OnCompileCommand (some ".bgvacc-update-check".toList) env st).trace =
        (DoCheck true env st).trace ∧
      (OnCompileCommand (some ".bgvacc-update-check".toList) env st).state =
        (DoCheck true env st).state ∧
      Effect.DoCheckCalled true ∈
        (OnCompileCommand (some ".bgvacc-update-check".toList) env st).trace) ∧
    (∀ (Counter : Int) (env : TimerEnv) (st : Plugin), st.firstTick = false →
      st.m_AutoChecksStopped = false →
      wrapInt (Counter - st.m_LastCheckCounter) ≥ st.m_IntervalSec →
      Effect.DoCheckCalled false ∈ (OnTimer Counter env st).trace) := by
  refine ⟨?_, fun st cbs h => runCallbacks_keeps cbs st h, ?_, periodic_check_runs⟩
  · intro verbose env st loc hl
    rw [DoCheck_flag, sector_ne_of_parsed hl]
    simp
  · intro env st
    obtain ⟨h1, h2⟩ := manual_command_runs env st
    refine ⟨h1, h2, ?_⟩
    rw [h1]
    simp [DoCheck]

/-- Witness for C9: after the first tick with a sector
loaded the flag is true; the next ticks and a manual command make no periodic
check, while the manual command does run `DoCheck(true)`; and before any sector
is loaded the tick at second 5 does make the periodic check. -/
theorem auto_checks_stop_for_good_witness :
    (DoCheck true sectorLoaded Plugin.init).state.m_AutoChecksStopped = true ∧
    ((runCallbacks (DoCheck true sectorLoaded Plugin.init).state
        [tickLoaded 6, .command (some ".bgvacc-update-check".toList) sectorLoaded,
         tickLoaded 12]).1.m_AutoChecksStopped = true ∧
      Effect.DoCheckCalled false ∉
        (runCallbacks (DoCheck true sectorLoaded Plugin.init).state
          [tickLoaded 6, .command (some ".bgvacc-update-check".toList) sectorLoaded,
           tickLoaded 12]).2) ∧
    Effect.DoCheckCalled true ∈
      (OnCompileCommand (some ".bgvacc-update-check".toList) sectorLoaded
        (DoCheck true sectorLoaded Plugin.init).state).trace ∧
    Effect.DoCheckCalled false ∈
      (OnTimer 5 (idleTick 0)
        { Plugin.init with firstTick := false }).trace :=
  ⟨auto_checks_stop_for_good.1 true sectorLoaded Plugin.init
      ⟨2510, 2, 0, "2510/2 LBSR 20251013".toList⟩ (by decide),
   auto_checks_stop_for_good.2.1 _ _ (by decide),
   (auto_checks_stop_for_good.2.2.1 sectorLoaded _).2.2,
   auto_checks_stop_for_good.2.2.2 5 (idleTick 0)
     { Plugin.init with firstTick := false } rfl rfl (by decide)⟩

/-- C10. The gate depends only on the sector label being non-empty: after every
`DoCheck` call `m_AutoChecksStopped` is true exactly when it was true before or
the label the call saw is non-empty, whatever the outcome of the call. So a call
with an empty label leaves the flag as it was, and after a call with a non-empty
label no later `OnTimer` or `OnCompileCommand` call enters the periodic
`DoCheck(false)`. -/
theorem gate_depends_on_label_only (verbose : Bool) (env : CheckEnv) (st : Plugin) :
    ((DoCheck verbose env st).state.m_AutoChecksStopped = true ↔
      (st.m_AutoChecksStopped = true ∨ env.sectorName ≠ [])) ∧
    (env.sectorName = [] →
      (DoCheck verbose env st).state.m_AutoChecksStopped = st.m_AutoChecksStopped) ∧
    (env.sectorName ≠ [] → ∀ cbs : List Callback,
      (runCallbacks (DoCheck verbose env st).state cbs).1.m_AutoChecksStopped = true ∧
      Effect.DoCheckCalled false ∉ (runCallbacks (DoCheck verbose env st).state cbs).2) := by
  have hflag := DoCheck_flag verbose env st
  have hemp : env.sectorName.isEmpty = true ↔ env.sectorName = [] := List.isEmpty_iff
  refine ⟨?_, ?_, ?_⟩
  · rw [hflag]
    by_cases h : env.sectorName = []
    · simp [h]
    · have : env.sectorName.isEmpty = false := by
        cases he : env.sectorName.isEmpty with
        | false => rfl
        | true => exact absurd (hemp.1 he) h
      simp [h, this]
  · intro h
    rw [hflag, h]
    simp
  · intro h cbs
    refine runCallbacks_keeps cbs _ ?_
    rw [hflag]
    have : env.sectorName.isEmpty = false := by
      cases he : env.sectorName.isEmpty with
      | false => rfl
      | true => exact absurd (hemp.1 he) h
    simp [this]

/-- Witness for C10: a periodic check on a label that cannot be parsed, and one
whose manifest cannot be fetched, both stop the later periodic checks; a check
with no sector loaded leaves the flag false. -/
theorem gate_depends_on_label_only_witness :
    (DoCheck false otherSector Plugin.init).trace = [.DoCheckCalled false] ∧
    (DoCheck false otherSector Plugin.init).state.m_AutoChecksStopped = true ∧
    Effect.DoCheckCalled false ∉
      (runCallbacks (DoCheck false otherSector Plugin.init).state
        [.timer 10 ⟨none, otherSector, otherSector, 1⟩]).2 ∧
    Effect.DoCheckCalled false ∉
      (runCallbacks (DoCheck false sectorLoaded Plugin.init).state [tickLoaded 10]).2 ∧
    (DoCheck false noSector Plugin.init).state.m_AutoChecksStopped = false :=
  ⟨by decide,
   (gate_depends_on_label_only false otherSector Plugin.init).1.2 (Or.inr (by decide)),
   ((gate_depends_on_label_only false otherSector Plugin.init).2.2 (by decide) _).2,
   ((gate_depends_on_label_only false sectorLoaded Plugin.init).2.2 (by decide) _).2,
   (gate_depends_on_label_only false noSector Plugin.init).2.1 rfl⟩

/-- C7 fails on the code. The label `2510/99999999999 LBSR 20251013` matches the
pattern, and `std::stoi` of its revision throws `std::out_of_range`; so does the
cycle of a manifest `"airac_cycle": 99999999999`. Nothing in `DoCheck`, `OnTimer`
or `OnCompileCommand` catches it: the exception leaves the timer callback and
the command callback. -/
theorem stoi_overflow_escapes :
    ParseLocalFromInfoString "2510/99999999999 LBSR 20251013".toList {} =
      .error .out_of_range ∧
    ParseRemoteJson manifestOverflow {} = .error .out_of_range ∧
    (OnTimer 1 ⟨none, overflowEnv none, overflowEnv none, 1⟩ Plugin.init).result =
      .error .out_of_range ∧
    (OnCompileCommand (some ".bgvacc-update-check".toList)
        (CheckEnv.ofLabel "2510/2 LBSR 20251013".toList (some manifestOverflow))
        Plugin.init).result = .error .out_of_range := by
  refine ⟨by decide, by decide, by decide, by decide⟩

/-- C6 fails on the code, by the defect of C7. A manual check on the label
`2510/99999999999 LBSR 20251013` ends in none of the six outcomes and shows no
message at all: `std::stoi` throws before any `DisplayUserMessage`. -/
theorem manual_check_without_message :
    (DoCheck true (overflowEnv (some manifestFull)) Plugin.init).trace =
      [.DoCheckCalled true] ∧
    (DoCheck true (overflowEnv (some manifestFull)) Plugin.init).result =
      .error .out_of_range := by
  refine ⟨by decide, by decide⟩

/-- The message policy of `DoCheck` on every input on which no conversion
throws: a manual check shows exactly the message of its outcome, a periodic
check shows it only for an available update. -/
theorem DoCheck_messages (env : CheckEnv) (st : Plugin) (o : Outcome) (loc : ParsedLocal)
    (remote : RemoteLatest) (h : outcome env = .ok (o, loc, remote)) :
    userMessages (DoCheck true env st).trace = [outcomeMessage env.sectorName loc remote o] ∧
    userMessages (DoCheck false env st).trace =
      (if o = .UpdateAvailable then [outcomeMessage env.sectorName loc remote o] else []) ∧
    (DoCheck true env st).result = .ok () ∧ (DoCheck false env st).result = .ok () := by
  unfold outcome at h
  unfold DoCheck DoCheckBody
  by_cases hs : env.sectorName.isEmpty = true
  · simp only [hs, if_true, Except.ok.injEq, Prod.mk.injEq] at h
    obtain ⟨rfl, rfl, rfl⟩ := h
    simp [hs, userMessages, outcomeMessage, msgNoSector]
  · simp only [hs, Bool.false_eq_true, if_false] at h ⊢
    cases hl : ParseLocalFromInfoString env.sectorName {} with
    | error e => rw [hl] at h; simp at h
    | ok r =>
      obtain ⟨b, loc'⟩ := r
      cases b
      · rw [hl] at h
        simp only [Except.ok.injEq, Prod.mk.injEq] at h
        obtain ⟨rfl, rfl, rfl⟩ := h
        simp [userMessages, outcomeMessage, msgLocalUnparseable]
      · rw [hl] at h
        simp only at h ⊢
        cases hh : HttpGet env.manifest with
        | mk ok body =>
          cases ok
          · rw [hh] at h
            simp only [Except.ok.injEq, Prod.mk.injEq] at h
            obtain ⟨rfl, rfl, rfl⟩ := h
            simp [userMessages, outcomeMessage, msgFetchFailed]
          · rw [hh] at h
            simp only at h ⊢
            cases hr : ParseRemoteJson body {} with
            | error e => rw [hr] at h; simp at h
            | ok r =>
              obtain ⟨b, remote'⟩ := r
              cases b
              · rw [hr] at h
                simp only [Except.ok.injEq, Prod.mk.injEq] at h
                obtain ⟨rfl, rfl, rfl⟩ := h
                simp [userMessages, outcomeMessage, msgManifestMalformed]
              · rw [hr] at h
                simp only at h ⊢
                by_cases hn : newer remote' loc' = true
                · simp only [hn, if_true, Except.ok.injEq, Prod.mk.injEq] at h
                  obtain ⟨rfl, rfl, rfl⟩ := h
                  simp [hn, userMessages, outcomeMessage, ShowUpdateAlert]
                · simp only [hn, Bool.false_eq_true, if_false, Except.ok.injEq,
                    Prod.mk.injEq] at h
                  obtain ⟨rfl, rfl, rfl⟩ := h
                  simp [hn, userMessages, outcomeMessage, msgUpToDate]

end BGvACC
